import Mathlib

/-!
Verification of the stark-bot backend against its specification.

The development shallowly embeds the Rust sources of the repository:

* `src/stark-backend/src/tools/builtin/exec.rs` — the `exec` tool
  (dangerous-command gate, timeout clamping, output truncation);
* `src/stark-backend/src/ai/openai.rs` — the OpenAI-compatible provider
  adapter (request construction, response parsing, tool-result messages);
* `src/stark-backend/src/db/tables/agent_settings.rs` — the agent-settings
  store;
* `src/stark-backend/src/channels/discord.rs` — the Discord message
  splitter.

Rust strings are modelled as Lean `String`/`List Char` where each `Char`
plays the role of one byte of the Rust UTF-8 string, so `String.length`
corresponds to Rust's byte-based `str::len`.  JSON values handled through
`serde_json::Value` are modelled by the `Json` inductive below; numbers are
restricted to integers, which covers every value the embedded code
constructs.  `serde_json::to_string` is modelled by `printJson` and
`serde_json::from_str` by `jsonFromStr`.
-/

namespace StarkBot

/-- Model of `serde_json::Value` (numbers restricted to integers). -/
inductive Json where
  | null
  | boolean (b : Bool)
  | number (n : Int)
  | string (s : String)
  | array (items : List Json)
  | object (entries : List (String × Json))

/-- Decimal digit character, `0`–`9`. -/
def digitChar (n : Nat) : Char := Char.ofNat (48 + n)

/-- Lowercase hexadecimal digit character, `0`–`9a`–`f`. -/
def hexDigitChar (n : Nat) : Char :=
  if n < 10 then Char.ofNat (48 + n) else Char.ofNat (87 + n)

/-- Decimal digits of a natural number, most significant first.  Fuel-indexed
so that the definition is structural and kernel-reducible; `fuel > n`
always suffices. -/
def natDigits (fuel n : Nat) : List Char :=
  match fuel with
  | 0 => []
  | f + 1 => if n < 10 then [digitChar n] else natDigits f (n / 10) ++ [digitChar (n % 10)]

/-- Decimal representation of a natural number. -/
def natChars (n : Nat) : List Char := natDigits (n + 1) n

/-- Decimal representation of an integer, as Rust's `Display` for `i64`
prints it. -/
def intChars (i : Int) : List Char :=
  if i < 0 then '-' :: natChars i.natAbs else natChars i.natAbs

/-- Escape of one character inside a JSON string literal.  `serde_json`
escapes the quote, the backslash and all control characters; control
characters other than `\n`, `\r`, `\t` are written as a `\u00XX` sequence
here (`serde_json` additionally shortens `\u0008`/`\u000c` to `\b`/`\f`,
a byte-level difference that no claim observes). -/
def escapeChar (c : Char) : List Char :=
  if c = '"' then ['\\', '"']
  else if c = '\\' then ['\\', '\\']
  else if c = '\n' then ['\\', 'n']
  else if c = '\r' then ['\\', 'r']
  else if c = '\t' then ['\\', 't']
  else if c.toNat < 32 then
    ['\\', 'u', '0', '0', hexDigitChar (c.toNat / 16), hexDigitChar (c.toNat % 16)]
  else [c]

/-- Escape of a whole JSON string body. -/
def escapeStr : List Char → List Char
  | [] => []
  | c :: cs => escapeChar c ++ escapeStr cs

mutual

/-- Model of `serde_json::to_string` on a `serde_json::Value`: compact
serialization, no extra whitespace. -/
def printJson : Json → List Char
  | .null => ['n', 'u', 'l', 'l']
  | .boolean true => ['t', 'r', 'u', 'e']
  | .boolean false => ['f', 'a', 'l', 's', 'e']
  | .number i => intChars i
  | .string s => '"' :: (escapeStr s.data ++ ['"'])
  | .array xs => '[' :: (printElems xs ++ [']'])
  | .object fs => '\x7b' :: (printMembers fs ++ ['\x7d'])

/-- Comma-separated serialization of array elements. -/
def printElems : List Json → List Char
  | [] => []
  | [x] => printJson x
  | x :: y :: xs => printJson x ++ ',' :: printElems (y :: xs)

/-- Comma-separated serialization of object members. -/
def printMembers : List (String × Json) → List Char
  | [] => []
  | [(k, v)] => '"' :: (escapeStr k.data ++ '"' :: ':' :: printJson v)
  | (k, v) :: m :: fs =>
    ('"' :: (escapeStr k.data ++ '"' :: ':' :: printJson v)) ++ ',' :: printMembers (m :: fs)

end

/-- String form of `serde_json::to_string`. -/
def jsonToString (v : Json) : String := String.mk (printJson v)

/-- Value of one hexadecimal digit character. -/
def hexVal (c : Char) : Option Nat :=
  if '0' ≤ c ∧ c ≤ '9' then some (c.toNat - 48)
  else if 'a' ≤ c ∧ c ≤ 'f' then some (c.toNat - 87)
  else if 'A' ≤ c ∧ c ≤ 'F' then some (c.toNat - 55)
  else none

/-- Character with the given code point, when that code point is valid. -/
def charOfNat? (n : Nat) : Option Char :=
  if n < 55296 then some (Char.ofNat n)
  else if 57343 < n ∧ n < 1114112 then some (Char.ofNat n)
  else none

/-- Single-character JSON escape codes. -/
def simpleEscape (e : Char) : Option Char :=
  if e = '"' then some '"'
  else if e = '\\' then some '\\'
  else if e = '/' then some '/'
  else if e = 'b' then some (Char.ofNat 8)
  else if e = 'f' then some (Char.ofNat 12)
  else if e = 'n' then some '\n'
  else if e = 'r' then some '\r'
  else if e = 't' then some '\t'
  else none

/-- Parse of a JSON string body (the part after the opening quote), up to and
including the closing quote.  Returns the decoded characters and the rest of
the input. -/
def parseStrBody : List Char → Option (List Char × List Char)
  | [] => none
  | c :: r =>
    if c = '"' then some ([], r)
    else if c = '\\' then
      match r with
      | 'u' :: h1 :: h2 :: h3 :: h4 :: r' =>
        match hexVal h1, hexVal h2, hexVal h3, hexVal h4 with
        | some a, some b, some c', some d =>
          match charOfNat? (4096 * a + 256 * b + 16 * c' + d) with
          | some ch => (parseStrBody r').map (fun p => (ch :: p.1, p.2))
          | none => none
        | _, _, _, _ => none
      | e :: r' =>
        match simpleEscape e with
        | some ch => (parseStrBody r').map (fun p => (ch :: p.1, p.2))
        | none => none
      | [] => none
    else (parseStrBody r).map (fun p => (c :: p.1, p.2))

/-- Parse of an unsigned decimal number prefix. -/
def parseNum (l : List Char) : Option (Nat × List Char) :=
  let ds := l.takeWhile Char.isDigit
  if ds.isEmpty then none
  else some (ds.foldl (fun a c => 10 * a + (c.toNat - 48)) 0, l.dropWhile Char.isDigit)

/-- Literal-keyword helper: succeed with the rest of the input when `lit` is
a prefix of it. -/
def expectPrefix (lit input : List Char) : Option (List Char) :=
  if lit.isPrefixOf input then some (input.drop lit.length) else none

mutual

/-- Model of `serde_json::from_str` value parsing: recursive descent over the
compact JSON grammar (integer numbers, no insignificant whitespace).  The
fuel argument makes the recursion structural; fuel exhaustion yields `none`,
and any fuel at least the nesting size of the value suffices. -/
def parseVal : Nat → List Char → Option (Json × List Char)
  | 0, _ => none
  | _ + 1, [] => none
  | fuel + 1, c :: rest =>
    if c = 'n' then (expectPrefix ['u', 'l', 'l'] rest).map (fun r => (.null, r))
    else if c = 't' then (expectPrefix ['r', 'u', 'e'] rest).map (fun r => (.boolean true, r))
    else if c = 'f' then (expectPrefix ['a', 'l', 's', 'e'] rest).map (fun r => (.boolean false, r))
    else if c = '"' then (parseStrBody rest).map (fun p => (.string (String.mk p.1), p.2))
    else if c = '[' then
      if rest.head? = some ']' then some (.array [], rest.tail)
      else (parseElems fuel rest).map (fun p => (.array p.1, p.2))
    else if c = '\x7b' then
      if rest.head? = some '\x7d' then some (.object [], rest.tail)
      else (parseMembers fuel rest).map (fun p => (.object p.1, p.2))
    else if c = '-' then (parseNum rest).map (fun p => (.number (-(p.1 : Int)), p.2))
    else if c.isDigit then (parseNum (c :: rest)).map (fun p => (.number (p.1 : Int), p.2))
    else none

/-- Parse of one or more comma-separated array elements followed by `]`. -/
def parseElems : Nat → List Char → Option (List Json × List Char)
  | 0, _ => none
  | fuel + 1, input =>
    match parseVal fuel input with
    | none => none
    | some (v, r) =>
      match r with
      | ',' :: r' => (parseElems fuel r').map (fun p => (v :: p.1, p.2))
      | ']' :: r' => some ([v], r')
      | _ => none

/-- Parse of one or more comma-separated object members followed by `}`. -/
def parseMembers : Nat → List Char → Option (List (String × Json) × List Char)
  | 0, _ => none
  | fuel + 1, input =>
    match input with
    | '"' :: rest =>
      match parseStrBody rest with
      | none => none
      | some (k, r) =>
        match r with
        | ':' :: r' =>
          match parseVal fuel r' with
          | none => none
          | some (v, r'') =>
            match r'' with
            | ',' :: r3 => (parseMembers fuel r3).map (fun p => ((String.mk k, v) :: p.1, p.2))
            | '\x7d' :: r3 => some ([(String.mk k, v)], r3)
            | _ => none
        | _ => none
    | _ => none

end

/-- Model of `serde_json::from_str::<serde_json::Value>`: the whole input
must be consumed. -/
def jsonFromStr (s : String) : Option Json :=
  match parseVal (s.data.length + 1) s.data with
  | some (v, []) => some v
  | _ => none

/-!
 ### The `exec` tool (`src/stark-backend/src/tools/builtin/exec.rs`)

`ToolResult` itself lives in `tools/types.rs`, which is not among the
provided sources.
-/

/-- Modelled from the spec: `ToolResult` of §3 (`tools/types.rs` is not part
of the provided sources): `{success : bool, content : string,
metadata : json-value}`; §4.2/§7 fix that failures are reported as
`success = false` with the diagnostic in `content`. -/
structure ToolResult where
  success : Bool
  content : String
  metadata : Option Json := none

/-- Modelled from the spec: `ToolResult::error` builds a failure result with
the diagnostic as content (spec §4.2: failures are always reported as
`ToolResult{success=false, content=<diagnostic>}`). -/
def toolResultError (msg : String) : ToolResult := ⟨false, msg, none⟩

/-- Modelled from the spec: `ToolResult::success` builds a success result. -/
def toolResultSuccess (content : String) : ToolResult := ⟨true, content, none⟩

/-- Configuration fields of `ExecTool` (`exec.rs` lines 16–22). -/
structure ExecTool where
  max_timeout : Nat
  security_mode : String

/-- Configuration part of `ExecTool::with_config` (`exec.rs` line 29). -/
def ExecTool.with_config (max_timeout : Nat) (security_mode : String) : ExecTool :=
  ⟨max_timeout, security_mode⟩

/-- Configuration part of `ExecTool::new` (`exec.rs` line 25):
`with_config(300, "full")`. -/
def ExecTool.new : ExecTool := ExecTool.with_config 300 "full"

/-- Dangerous-pattern table of `is_dangerous_command` (`exec.rs` lines
96–107), in source order. -/
def dangerous_patterns : List (String × String) :=
  [("rm -rf /", "Attempted to delete root filesystem"),
   ("rm -rf /*", "Attempted to delete root filesystem"),
   ("mkfs", "Filesystem formatting not allowed"),
   ("dd if=", "Raw disk operations not allowed"),
   (":()\x7b:|:&\x7d;:", "Fork bomb detected"),
   ("chmod -R 777 /", "Dangerous permission change"),
   ("shutdown", "System shutdown not allowed"),
   ("reboot", "System reboot not allowed"),
   ("init 0", "System halt not allowed"),
   ("init 6", "System reboot not allowed")]

/-- Shell metacharacters blocked in restricted mode (`exec.rs` line 117). -/
def dangerous_chars : List Char :=
  ['|', ';', '&', '$', Char.ofNat 96, '(', ')', '<', '>']

/-- Model of Rust `str::to_lowercase`.  Rust applies the full Unicode
lowercase mapping; the ASCII mapping used here agrees with it on every
ASCII string, and all dangerous patterns are ASCII. -/
def to_lowercase (s : String) : String := ⟨s.data.map Char.toLower⟩

/-- Substring test on character lists, as Rust `str::contains` with a string
pattern. -/
def listContainsSub (needle : List Char) : List Char → Bool
  | [] => needle.isPrefixOf []
  | c :: t => needle.isPrefixOf (c :: t) || listContainsSub needle t

/-- Model of `ExecTool::is_dangerous_command` (`exec.rs` lines 92–124):
first matching dangerous pattern on the lowercased command, else the
restricted-mode metacharacter check. -/
def is_dangerous_command (tool : ExecTool) (command : String) : Option String :=
  let lower := to_lowercase command
  match dangerous_patterns.find? (fun pm => listContainsSub pm.1.data lower.data) with
  | some pm => some pm.2
  | none =>
    if tool.security_mode = "restricted" then
      if command.data.any (fun c => dangerous_chars.contains c) then
        some "Shell metacharacters not allowed in restricted mode"
      else none
    else none

/-- Deserialized `ExecParams` (`exec.rs` lines 133–139). -/
structure ExecParams where
  command : String
  workdir : Option String := none
  timeout : Option Nat := none
  env : List (String × String) := []

/-- Behaviour of the spawned subprocess, the environment-supplied part of
`execute`: either the `sh -c` child runs to completion with the given
outputs, or spawning fails.  `duration_secs` drives the `tokio::time::timeout`
at `exec.rs` line 227: the command times out when it exceeds the enforced
timeout. -/
inductive ProcBehaviour where
  | runs (duration_secs : Nat) (stdout stderr : String) (exit_code : Option Int)
      (status_success : Bool)
  | spawnError (e : String)

/-- Outcome of the pre-spawn phase of `execute`: either the command is
blocked before any subprocess is spawned (`exec.rs` lines 153–156), or a
shell child is to be spawned with the enforced timeout
(`exec.rs` line 158). -/
inductive ExecAction where
  | blocked (result : ToolResult)
  | spawn (shell_command : String) (timeout_secs : Nat)

/-- Pre-spawn phase of `ExecTool::execute` (`exec.rs` lines 153–158): the
dangerous-command gate, then the timeout clamp
`params.timeout.unwrap_or(60).min(self.max_timeout)`. -/
def exec_gate (tool : ExecTool) (params : ExecParams) : ExecAction :=
  match is_dangerous_command tool params.command with
  | some reason => .blocked (toolResultError ("Command blocked: " ++ reason))
  | none => .spawn params.command (min (params.timeout.getD 60) tool.max_timeout)

/-- Output-assembly phase of `execute` (`exec.rs` lines 239–264): join
stdout and stderr, fall back to an exit-code message when both are empty. -/
def exec_result_text (stdout stderr : String) (success : Bool) (exit_code : Int) : String :=
  let t1 := if stdout.isEmpty then "" else stdout
  let t2 :=
    if stderr.isEmpty then t1
    else if t1.isEmpty then stderr
    else t1 ++ "\n--- stderr ---\n" ++ stderr
  if t2.isEmpty then
    if success then
      "Command completed successfully (exit code: " ++ String.mk (intChars exit_code) ++ ")"
    else
      "Command failed with exit code: " ++ String.mk (intChars exit_code)
  else t2

/-- Truncation step of `execute` (`exec.rs` lines 266–274): output longer
than `MAX_OUTPUT = 50000` bytes is cut to the first 50000 bytes and the
truncation marker is appended. -/
def exec_truncate (result_text : String) : String :=
  if result_text.length > 50000 then
    String.mk (result_text.data.take 50000) ++ "\n\n[Output truncated at " ++
      String.mk (natChars 50000) ++ " characters]"
  else result_text

/-- Model of `ExecTool::execute` (`exec.rs` lines 147–291) from the
dangerous-command gate on, with the subprocess behaviour supplied as
`proc`.  Parameter parsing (lines 148–151), working-directory resolution
and environment set-up (lines 160–220) and the metadata attachment of
`with_metadata` (lines 285–290) are outside the model; claims inspect
`success` and `content` only. -/
def execute (tool : ExecTool) (params : ExecParams) (proc : ProcBehaviour) : ToolResult :=
  match exec_gate tool params with
  | .blocked r => r
  | .spawn _ timeout_secs =>
    match proc with
    | .spawnError e => toolResultError ("Failed to execute command: " ++ e)
    | .runs d stdout stderr exit_code status_success =>
      if timeout_secs < d then
        toolResultError ("Command timed out after " ++ String.mk (natChars timeout_secs) ++
          " seconds. Consider increasing timeout or running in background.")
      else
        let exit_int : Int := exit_code.getD (-1)
        let text := exec_truncate (exec_result_text stdout stderr status_success exit_int)
        if status_success then toolResultSuccess text else toolResultError text

/-!
 ### The OpenAI-compatible provider adapter (`src/stark-backend/src/ai/openai.rs`)
-/

/-- Modelled from the spec: canonical `Message` of §3 (`ai/mod.rs` is not
part of the provided sources): role in `{user, assistant, tool}` rendered to
a string by `to_string`, plus text content. -/
structure Message where
  role : String
  content : String

/-- Wire struct `OpenAIFunctionCall` (`openai.rs` lines 60–64); `arguments`
is a JSON-encoded string. -/
structure OpenAIFunctionCall where
  name : String
  arguments : String

/-- Wire struct `OpenAIToolCall` (`openai.rs` lines 52–58); `call_type` is
serialized under the key `type`. -/
structure OpenAIToolCall where
  id : String
  call_type : String
  function : OpenAIFunctionCall

/-- Wire struct `OpenAIMessage` (`openai.rs` lines 27–36); `none` fields are
skipped during serialization. -/
structure OpenAIMessage where
  role : String
  content : Option String
  tool_calls : Option (List OpenAIToolCall)
  tool_call_id : Option String

/-- Wire struct `OpenAIFunction` (`openai.rs` lines 45–50). -/
structure OpenAIFunction where
  name : String
  description : String
  parameters : Json

/-- Wire struct `OpenAITool` (`openai.rs` lines 38–43); `tool_type` is
serialized under the key `type`. -/
structure OpenAITool where
  tool_type : String
  function : OpenAIFunction

/-- Wire struct `OpenAICompletionRequest` (`openai.rs` lines 16–25); `tools`
and `tool_choice` are skipped when `none`. -/
structure OpenAICompletionRequest where
  model : String
  messages : List OpenAIMessage
  max_tokens : Nat
  tools : Option (List OpenAITool)
  tool_choice : Option String

/-- Modelled from the spec: `PropertySchema` of §3
(`tools/types.rs` is not part of the provided sources):
`{type, description, default?, items?, enum?}`. -/
structure PropertySchema where
  schema_type : String
  description : String
  default : Option Json := none
  items : Option Json := none
  enum_values : Option (List String) := none

/-- Modelled from the spec: `ToolInputSchema` of §3, the JSON-Schema subset
`{type = object, properties : map, required : list}`.  The Rust `properties`
is a `HashMap`; it is modelled as an association list whose order stands for
the map's iteration order. -/
structure ToolInputSchema where
  schema_type : String
  properties : List (String × PropertySchema)
  required : List String

/-- Modelled from the spec: `ToolDefinition` of §3
(`tools/types.rs` is not part of the provided sources). -/
structure ToolDefinition where
  name : String
  description : String
  input_schema : ToolInputSchema
  group : String

/-- Canonical tool call (`ai/types.rs` lines 5–13): structured JSON
arguments. -/
structure ToolCall where
  id : String
  name : String
  arguments : Json

/-- Canonical tool response (`ai/types.rs` lines 16–24). -/
structure ToolResponse where
  tool_call_id : String
  content : String
  is_error : Bool

/-- Unified AI reply (`ai/types.rs` lines 64–72); the spec calls this
`AgentReply`. -/
structure AiResponse where
  content : String
  tool_calls : List ToolCall
  stop_reason : Option String

/-- Response wire struct `OpenAIResponseMessage` (`openai.rs` lines 77–81). -/
structure OpenAIResponseMessage where
  content : Option String
  tool_calls : Option (List OpenAIToolCall)

/-- Response wire struct `OpenAIChoice` (`openai.rs` lines 71–75). -/
structure OpenAIChoice where
  message : OpenAIResponseMessage
  finish_reason : Option String

/-- Response wire struct `OpenAICompletionResponse` (`openai.rs`
lines 66–69). -/
structure OpenAICompletionResponse where
  choices : List OpenAIChoice

/-- Sorted-map insertion order of `serde_json::Map`, which is a `BTreeMap`
under `serde_json`'s default features: members are emitted in ascending key
order, independently of insertion order. -/
def sortByKey (l : List (String × Json)) : List (String × Json) :=
  l.mergeSort (fun a b => a.1 ≤ b.1)

/-- The `parameters` value built by the `json!` macro at `openai.rs` lines
166–175.  All three objects go through `serde_json::Map`, so keys appear in
ascending order. -/
def mkParameters (schema : ToolInputSchema) : Json :=
  .object [("properties", .object (sortByKey (schema.properties.map (fun kv =>
          (kv.1, Json.object [("description", .string kv.2.description),
                           ("type", .string kv.2.schema_type)]))))),
        ("required", .array (schema.required.map .string)),
        ("type", .string schema.schema_type)]

/-- Request-construction part of `generate_with_tools_internal` (`openai.rs`
lines 141–188): canonical messages first, then the tool history; `tools` and
`tool_choice = "auto"` only when the tool list is non-empty;
`max_tokens = 4096`. -/
def build_request (model : String) (messages : List Message)
    (tool_history : List OpenAIMessage) (tools : List ToolDefinition) :
    OpenAICompletionRequest :=
  let api_messages :=
    messages.map (fun m => OpenAIMessage.mk m.role (some m.content) none none) ++ tool_history
  { model := model
    messages := api_messages
    max_tokens := 4096
    tools :=
      if tools.isEmpty then none
      else some (tools.map (fun t =>
        OpenAITool.mk "function" (OpenAIFunction.mk t.name t.description
          (mkParameters t.input_schema))))
    tool_choice := if tools.isEmpty then none else some "auto" }

/-- Serialization of `OpenAIFunctionCall` (serde derive: declaration
order). -/
def OpenAIFunctionCall.toJson (f : OpenAIFunctionCall) : Json :=
  .object [("name", .string f.name), ("arguments", .string f.arguments)]

/-- Serialization of `OpenAIToolCall` (serde derive; `call_type` renamed to
`type`). -/
def OpenAIToolCall.toJson (tc : OpenAIToolCall) : Json :=
  .object [("id", .string tc.id), ("type", .string tc.call_type),
        ("function", tc.function.toJson)]

/-- Serialization of `OpenAIMessage` (serde derive; `none` fields
skipped). -/
def OpenAIMessage.toJson (m : OpenAIMessage) : Json :=
  .object ([("role", Json.string m.role)] ++
    (match m.content with | some c => [("content", Json.string c)] | none => []) ++
    (match m.tool_calls with
     | some tcs => [("tool_calls", Json.array (tcs.map OpenAIToolCall.toJson))]
     | none => []) ++
    (match m.tool_call_id with | some i => [("tool_call_id", Json.string i)] | none => []))

/-- Serialization of `OpenAITool` (serde derive; `tool_type` renamed to
`type`). -/
def OpenAITool.toJson (t : OpenAITool) : Json :=
  .object [("type", .string t.tool_type),
        ("function", .object [("name", .string t.function.name),
                           ("description", .string t.function.description),
                           ("parameters", t.function.parameters)])]

/-- Serialization of `OpenAICompletionRequest` (serde derive; `tools` and
`tool_choice` skipped when `none`): the JSON body `reqwest` posts at
`openai.rs` line 195. -/
def OpenAICompletionRequest.toJson (r : OpenAICompletionRequest) : Json :=
  .object ([("model", Json.string r.model),
         ("messages", Json.array (r.messages.map OpenAIMessage.toJson)),
         ("max_tokens", Json.number r.max_tokens)] ++
    (match r.tools with
     | some ts => [("tools", Json.array (ts.map OpenAITool.toJson))]
     | none => []) ++
    (match r.tool_choice with | some c => [("tool_choice", Json.string c)] | none => []))

/-- Byte payload of the request: the serialized JSON body. -/
def request_payload (model : String) (messages : List Message)
    (tool_history : List OpenAIMessage) (tools : List ToolDefinition) : String :=
  jsonToString (build_request model messages tool_history tools).toJson

/-- Conversion of one provider tool call into a canonical `ToolCall`
(`openai.rs` lines 235–243): arguments are parsed from string JSON, with the
empty object substituted on parse failure. -/
def parse_tool_call (tc : OpenAIToolCall) : ToolCall :=
  ⟨tc.id, tc.function.name, (jsonFromStr tc.function.arguments).getD (.object [])⟩

/-- Response-interpretation part of `generate_with_tools_internal`
(`openai.rs` lines 219–258), applied to the decoded completion response. -/
def parse_success_response (resp : OpenAICompletionResponse) : Except String AiResponse :=
  match resp.choices.head? with
  | none => .error "OpenAI API returned no choices"
  | some choice =>
    let content := choice.message.content.getD ""
    let finish_reason := choice.finish_reason
    let tool_calls := (choice.message.tool_calls.getD []).map parse_tool_call
    let is_tool_use : Bool := finish_reason == some "tool_calls" || !tool_calls.isEmpty
    .ok ⟨content, tool_calls,
      some (if is_tool_use then "tool_use" else "end_turn")⟩

/-- Required-string field lookup for the serde decoders. -/
def jsonField (fs : List (String × Json)) (key : String) : Option Json :=
  (fs.find? (fun kv => kv.1 = key)).map (fun kv => kv.2)

/-- Decoder for a JSON string. -/
def decodeString : Json → Option String
  | .string s => some s
  | _ => none

/-- Decoder for an `Option<String>` field under serde: absent or `null`
gives `none`, a string gives `some`, any other value is an error. -/
def decodeOptStringField (fs : List (String × Json)) (key : String) :
    Option (Option String) :=
  match jsonField fs key with
  | none => some none
  | some .null => some none
  | some (.string s) => some (some s)
  | some _ => none

/-- Deserialization of `OpenAIFunctionCall` (serde derive). -/
def decodeFunctionCall : Json → Option OpenAIFunctionCall
  | .object fs => do
    let name ← jsonField fs "name" >>= decodeString
    let arguments ← jsonField fs "arguments" >>= decodeString
    pure ⟨name, arguments⟩
  | _ => none

/-- Deserialization of `OpenAIToolCall` (serde derive; `type` into
`call_type`). -/
def decodeToolCall : Json → Option OpenAIToolCall
  | .object fs => do
    let id ← jsonField fs "id" >>= decodeString
    let call_type ← jsonField fs "type" >>= decodeString
    let function ← jsonField fs "function" >>= decodeFunctionCall
    pure ⟨id, call_type, function⟩
  | _ => none

/-- Deserialization of `OpenAIResponseMessage` (serde derive). -/
def decodeResponseMessage : Json → Option OpenAIResponseMessage
  | .object fs => do
    let content ← decodeOptStringField fs "content"
    let tool_calls ←
      match jsonField fs "tool_calls" with
      | none => some none
      | some .null => some none
      | some (.array xs) => (xs.mapM decodeToolCall).map some
      | some _ => none
    pure ⟨content, tool_calls⟩
  | _ => none

/-- Deserialization of `OpenAIChoice` (serde derive). -/
def decodeChoice : Json → Option OpenAIChoice
  | .object fs => do
    let message ← jsonField fs "message" >>= decodeResponseMessage
    let finish_reason ← decodeOptStringField fs "finish_reason"
    pure ⟨message, finish_reason⟩
  | _ => none

/-- Deserialization of `OpenAICompletionResponse` (serde derive). -/
def decodeCompletionResponse : Json → Option OpenAICompletionResponse
  | .object fs =>
    match jsonField fs "choices" with
    | some (.array xs) => (xs.mapM decodeChoice).map OpenAICompletionResponse.mk
    | _ => none
  | _ => none

/-- Deserialization of `OpenAIErrorResponse` (`openai.rs` lines 83–91),
reduced to the error message it carries. -/
def decodeErrorResponse : Json → Option String
  | .object fs =>
    match jsonField fs "error" with
    | some (.object efs) => jsonField efs "message" >>= decodeString
    | _ => none
  | _ => none

/-- Outcome of the provider HTTP exchange, the environment-supplied part of
`generate_with_tools_internal`: either the request itself fails, or a
response with a status code and a body arrives. -/
inductive HttpOutcome where
  | netFail (e : String)
  | response (status : Nat) (body : String)

/-- HTTP-handling part of `generate_with_tools_internal` (`openai.rs` lines
192–258): every failure — network error, non-success status, unparsable
body, empty choices — is returned through the `Err` variant of the
`Result`, as a diagnostic string.  The Rust diagnostics embed `reqwest`'s
error rendering (and its status display includes the canonical reason
phrase); the model keeps the constant prefixes and renders the status as
the bare code, which no claim inspects further. -/
def handle_provider_response (o : HttpOutcome) : Except String AiResponse :=
  match o with
  | .netFail e => .error ("OpenAI API request failed: " ++ e)
  | .response status body =>
    if 200 ≤ status ∧ status < 300 then
      match (jsonFromStr body).bind decodeCompletionResponse with
      | none => .error "Failed to parse OpenAI response: invalid body"
      | some resp => parse_success_response resp
    else
      match (jsonFromStr body).bind decodeErrorResponse with
      | some msg => .error ("OpenAI API error: " ++ msg)
      | none =>
        .error ("OpenAI API returned error status: " ++ String.mk (natChars status) ++
          ", body: " ++ body)

/-- Model of `OpenAIClient::build_tool_result_messages` (`openai.rs` lines
262–299): one assistant message carrying the tool calls with null content,
followed by one `role = "tool"` message per response.
`serde_json::to_string` on a `Value` cannot fail, so the
`unwrap_or_default` at line 276 always takes the serialized string. -/
def build_tool_result_messages (tool_calls : List ToolCall)
    (tool_responses : List ToolResponse) : List OpenAIMessage :=
  let openai_tool_calls := tool_calls.map (fun tc =>
    OpenAIToolCall.mk tc.id "function"
      (OpenAIFunctionCall.mk tc.name (jsonToString tc.arguments)))
  OpenAIMessage.mk "assistant" none (some openai_tool_calls) none ::
    tool_responses.map (fun r =>
      OpenAIMessage.mk "tool" (some r.content) none (some r.tool_call_id))

/-!
 ### The agent-settings store (`src/stark-backend/src/db/tables/agent_settings.rs`)
-/

/-- Row of the `agent_settings` table (`models/agent_settings.rs`), with the
timestamps as their RFC 3339 strings. -/
structure AgentSettings where
  id : Nat
  endpoint : String
  model_archetype : String
  max_tokens : Int
  enabled : Bool
  secret_key : Option String
  created_at : String
  updated_at : String

/-- The `agent_settings` table: rows in rowid order; `id` is the integer
primary key. -/
abbrev AgentSettingsTable := List AgentSettings

/-- Model of `get_active_agent_settings` (`agent_settings.rs` lines 11–24):
`SELECT … WHERE enabled = 1 LIMIT 1`. -/
def get_active_agent_settings (db : AgentSettingsTable) : Option AgentSettings :=
  db.find? (fun r => r.enabled)

/-- Model of `get_agent_settings_by_endpoint` (`agent_settings.rs` lines
27–40): first row with the given endpoint. -/
def get_agent_settings_by_endpoint (db : AgentSettingsTable) (endpoint : String) :
    Option AgentSettings :=
  db.find? (fun r => r.endpoint = endpoint)

/-- Fresh rowid for an insert: SQLite assigns one more than the largest
rowid in use. -/
def next_rowid (db : AgentSettingsTable) : Nat :=
  db.foldr (fun r m => max r.id m) 0 + 1

/-- Model of `save_agent_settings` (`agent_settings.rs` lines 59–102):
disable every row, then update the row with the given endpoint (located by
id) or insert a new enabled row, and re-read by endpoint.  `now` stands for
`Utc::now().to_rfc3339()`. -/
def save_agent_settings (db : AgentSettingsTable) (endpoint model_archetype : String)
    (max_tokens : Int) (secret_key : Option String) (now : String) :
    AgentSettingsTable × Option AgentSettings :=
  let db1 := db.map (fun r => { r with enabled := false, updated_at := now })
  match (db1.find? (fun r => r.endpoint = endpoint)).map (fun r => r.id) with
  | some i =>
    let db2 := db1.map (fun r =>
      if r.id = i then
        { r with model_archetype := model_archetype, max_tokens := max_tokens,
                 secret_key := secret_key, enabled := true, updated_at := now }
      else r)
    (db2, get_agent_settings_by_endpoint db2 endpoint)
  | none =>
    let db2 := db1 ++ [⟨next_rowid db1, endpoint, model_archetype, max_tokens, true,
      secret_key, now, now⟩]
    (db2, get_agent_settings_by_endpoint db2 endpoint)

/-- Model of `disable_agent_settings` (`agent_settings.rs` lines 105–110):
`UPDATE agent_settings SET enabled = 0`. -/
def disable_agent_settings (db : AgentSettingsTable) (now : String) : AgentSettingsTable :=
  db.map (fun r => { r with enabled := false, updated_at := now })

/-- Number of enabled rows; the store's invariant is that it never exceeds
one. -/
def enabledCount (db : AgentSettingsTable) : Nat :=
  (db.filter (fun r => r.enabled)).length

/-!
 ### The Discord message splitter (`src/stark-backend/src/channels/discord.rs`)
-/

/-- Split at newline characters; always returns one more piece than there
are newlines. -/
def splitNl : List Char → List (List Char)
  | [] => [[]]
  | c :: cs =>
    let r := splitNl cs
    if c = '\n' then [] :: r
    else
      match r with
      | [] => [[c]]
      | h :: t => (c :: h) :: t

/-- Model of Rust `str::lines`: split at `\n`, strip one `\r` before each
`\n`, and drop a final empty piece (the optional trailing line ending). -/
def rust_lines (l : List Char) : List (List Char) :=
  let ps := splitNl l
  match ps.getLast? with
  | none => []
  | some last =>
    let init := ps.dropLast.map (fun p =>
      if p.getLast? = some '\r' then p.dropLast else p)
    if last.isEmpty then init else init ++ [last]

/-- The `while remaining.len() > max_len` loop of `split_message`
(`discord.rs` lines 312–316), fuel-indexed on the line length. -/
def chop (fuel max_len : Nat) (s : List Char) : List (List Char) × List Char :=
  match fuel with
  | 0 => ([], s)
  | f + 1 =>
    if s.length > max_len then
      let p := chop f max_len (s.drop max_len)
      (s.take max_len :: p.1, p.2)
    else ([], s)

/-- One iteration of the `for line in text.lines()` loop of `split_message`
(`discord.rs` lines 304–329), over the state `(chunks, current)`. -/
def split_step (max_len : Nat) (st : List (List Char) × List Char) (line : List Char) :
    List (List Char) × List Char :=
  let chunks := st.1
  let current := st.2
  if current.length + line.length + 1 > max_len then
    let chunks := if current.isEmpty then chunks else chunks ++ [current]
    if line.length > max_len then
      let p := chop line.length max_len line
      (chunks ++ p.1, if p.2.isEmpty then [] else p.2)
    else (chunks, line)
  else
    (chunks, if current.isEmpty then line else current ++ '\n' :: line)

/-- Model of `split_message` (`discord.rs` lines 296–336) on character
lists. -/
def split_message_core (text : List Char) (max_len : Nat) : List (List Char) :=
  if text.length ≤ max_len then [text]
  else
    let st := (rust_lines text).foldl (split_step max_len) ([], [])
    if st.2.isEmpty then st.1 else st.1 ++ [st.2]

/-- Model of `split_message` (`discord.rs` lines 296–336). -/
def split_message (text : String) (max_len : Nat) : List String :=
  (split_message_core text.data max_len).map String.mk

/-- Dispatch result consumed by the Discord handler (`response` plus an
optional error diagnostic). -/
structure DispatchResult where
  response : String
  error : Option String

/-- Final-response part of the Discord message handler (`discord.rs` lines
277–291): a successful non-empty response is sent as
`split_message(response, 2000)` chunks; an error is reported with a fixed
prefix; an empty success sends nothing. -/
def discord_final_messages (result : DispatchResult) : List String :=
  if result.error.isNone ∧ result.response ≠ "" then
    split_message result.response 2000
  else
    match result.error with
    | some e => ["Sorry, I encountered an error: " ++ e]
    | none => []

/-! ### Round trip: the parser inverts the serializer -/

theorem digitChar_facts : ∀ n, n < 10 →
    (digitChar n).isDigit = true ∧ (digitChar n).toNat - 48 = n := by decide

theorem natDigits_digits : ∀ f n, n < f → ∀ c ∈ natDigits f n, c.isDigit = true := by
  intro f
  induction f with
  | zero => intro n h; omega
  | succ f ih =>
    intro n _ c hc
    by_cases h10 : n < 10
    · simp only [natDigits, if_pos h10, List.mem_singleton] at hc
      exact hc ▸ (digitChar_facts n h10).1
    · simp only [natDigits, if_neg h10, List.mem_append, List.mem_singleton] at hc
      rcases hc with hc | hc
      · exact ih (n / 10) (by omega) c hc
      · exact hc ▸ (digitChar_facts (n % 10) (Nat.mod_lt _ (by omega))).1

theorem natDigits_ne_nil : ∀ f n, n < f → natDigits f n ≠ [] := by
  intro f n h
  cases f with
  | zero => omega
  | succ f =>
    by_cases h10 : n < 10 <;> simp [natDigits, h10]

theorem natDigits_foldl : ∀ f n a, n < f →
    (natDigits f n).foldl (fun acc c => 10 * acc + (c.toNat - 48)) a =
      a * 10 ^ (natDigits f n).length + n := by
  intro f
  induction f with
  | zero => intro n a h; omega
  | succ f ih =>
    intro n a _
    by_cases h10 : n < 10
    · simp only [natDigits, if_pos h10, List.foldl_cons, List.foldl_nil, List.length_singleton,
        pow_one]
      rw [(digitChar_facts n h10).2]
      ring
    · simp only [natDigits, if_neg h10, List.foldl_append, List.foldl_cons, List.foldl_nil,
        List.length_append, List.length_singleton]
      rw [ih (n / 10) a (by omega), (digitChar_facts (n % 10) (Nat.mod_lt _ (by omega))).2]
      have : n = 10 * (n / 10) + n % 10 := (Nat.div_add_mod n 10).symm
      rw [pow_succ]
      ring_nf
      omega

theorem takeWhile_append_all {p : Char → Bool} {l r : List Char}
    (hl : ∀ c ∈ l, p c = true) (hr : ∀ c, r.head? = some c → p c = false) :
    (l ++ r).takeWhile p = l ∧ (l ++ r).dropWhile p = r := by
  induction l with
  | nil =>
    simp only [List.nil_append]
    cases r with
    | nil => simp
    | cons c cs => simp [List.takeWhile, List.dropWhile, hr c rfl]
  | cons c cs ih =>
    have hc : p c = true := hl c (List.mem_cons_self _ _)
    have ihr := ih (fun d hd => hl d (List.mem_cons_of_mem _ hd))
    simp [List.takeWhile, List.dropWhile, hc, ihr.1, ihr.2]

theorem parseNum_natChars (n : Nat) (rest : List Char)
    (hrest : ∀ c, rest.head? = some c → c.isDigit = false) :
    parseNum (natChars n ++ rest) = some (n, rest) := by
  have hdig := natDigits_digits (n + 1) n (Nat.lt_succ_self n)
  have hsplit := takeWhile_append_all hdig hrest
  have hne := natDigits_ne_nil (n + 1) n (Nat.lt_succ_self n)
  have hfold := natDigits_foldl (n + 1) n 0 (Nat.lt_succ_self n)
  simp only [parseNum, natChars] at *
  rw [hsplit.1, hsplit.2]
  simp [List.isEmpty_iff, hne, hfold]

theorem hexVal_hexDigitChar : ∀ v, v < 16 → hexVal (hexDigitChar v) = some v := by decide

theorem parseStrBody_escape : ∀ (s rest : List Char),
    parseStrBody (escapeStr s ++ '"' :: rest) = some (s, rest) := by
  intro s
  induction s with
  | nil => intro rest; rw [escapeStr, List.nil_append, parseStrBody.eq_def]; simp
  | cons c cs ih =>
    intro rest
    by_cases h1 : c = '"'
    · subst h1
      simp +decide only [escapeStr, escapeChar, List.cons_append, List.nil_append]
      rw [parseStrBody.eq_def]
      simp +decide [simpleEscape, ih]
    · by_cases h2 : c = '\\'
      · subst h2
        simp +decide only [escapeStr, escapeChar, List.cons_append, List.nil_append]
        rw [parseStrBody.eq_def]
        simp +decide [simpleEscape, ih]
      · by_cases h3 : c = '\n'
        · subst h3
          simp +decide only [escapeStr, escapeChar, List.cons_append, List.nil_append]
          rw [parseStrBody.eq_def]
          simp +decide [simpleEscape, ih]
        · by_cases h4 : c = '\r'
          · subst h4
            simp +decide only [escapeStr, escapeChar, List.cons_append, List.nil_append]
            rw [parseStrBody.eq_def]
            simp +decide [simpleEscape, ih]
          · by_cases h5 : c = '\t'
            · subst h5
              simp +decide only [escapeStr, escapeChar, List.cons_append, List.nil_append]
              rw [parseStrBody.eq_def]
              simp +decide [simpleEscape, ih]
            · by_cases h6 : c.toNat < 32
              · have e0 : hexVal '0' = some 0 := by decide
                have e3 : hexVal (hexDigitChar (c.toNat / 16)) = some (c.toNat / 16) :=
                  hexVal_hexDigitChar _ (by omega)
                have e4 : hexVal (hexDigitChar (c.toNat % 16)) = some (c.toNat % 16) :=
                  hexVal_hexDigitChar _ (Nat.mod_lt _ (by omega))
                have hsum : 16 * (c.toNat / 16) + c.toNat % 16 = c.toNat := by omega
                have hchar : charOfNat? c.toNat = some c := by
                  rw [charOfNat?, if_pos (by omega)]
                  exact congrArg some (Char.ofNat_toNat c)
                simp only [escapeStr, escapeChar, if_neg h1, if_neg h2, if_neg h3, if_neg h4,
                  if_neg h5, if_pos h6, List.cons_append, List.nil_append]
                rw [parseStrBody.eq_def]
                simp +decide [e0, e3, e4, hsum, hchar, ih]
              · simp only [escapeStr, escapeChar, if_neg h1, if_neg h2, if_neg h3, if_neg h4,
                  if_neg h5, if_neg h6, List.cons_append, List.nil_append]
                rw [parseStrBody.eq_def]
                simp [h1, h2, ih]

mutual

/-- Fuel measure of a JSON value: nesting size needed by `parseVal`. -/
def jsize : Json → Nat
  | .null => 1
  | .boolean _ => 1
  | .number _ => 1
  | .string _ => 1
  | .array [] => 1
  | .array (x :: xs) => 1 + elemsSize (x :: xs)
  | .object [] => 1
  | .object (f :: fs) => 1 + membersSize (f :: fs)

/-- Fuel measure of array elements. -/
def elemsSize : List Json → Nat
  | [] => 1
  | [x] => 1 + jsize x
  | x :: y :: xs => 1 + max (jsize x) (elemsSize (y :: xs))

/-- Fuel measure of object members. -/
def membersSize : List (String × Json) → Nat
  | [] => 1
  | [(_, v)] => 1 + jsize v
  | (_, v) :: m :: fs => 1 + max (jsize v) (membersSize (m :: fs))

end

theorem jsize_pos (v : Json) : 0 < jsize v := by
  cases v with
  | array xs => cases xs <;> simp [jsize]
  | object fs => cases fs <;> simp [jsize]
  | _ => simp [jsize]

theorem elemsSize_pos (xs : List Json) : 0 < elemsSize xs := by
  cases xs with
  | nil => simp [elemsSize]
  | cons x xs => cases xs <;> simp [elemsSize]

theorem membersSize_pos (fs : List (String × Json)) : 0 < membersSize fs := by
  cases fs with
  | nil => simp [membersSize]
  | cons f fs => rcases f with ⟨k, v⟩; cases fs <;> simp [membersSize]

theorem natChars_ne_nil (n : Nat) : natChars n ≠ [] :=
  natDigits_ne_nil (n + 1) n (Nat.lt_succ_self n)

theorem digit_not_special {c : Char} (h : c.isDigit = true) :
    c ≠ 'n' ∧ c ≠ 't' ∧ c ≠ 'f' ∧ c ≠ '"' ∧ c ≠ '[' ∧ c ≠ '\x7b' ∧ c ≠ '-' ∧
      c ≠ ']' ∧ c ≠ '\x7d' := by
  refine ⟨?_, ?_, ?_, ?_, ?_, ?_, ?_, ?_, ?_⟩ <;>
    (rintro rfl; revert h; decide)

theorem printJson_ne_nil (v : Json) : printJson v ≠ [] := by
  cases v with
  | boolean b => cases b <;> simp [printJson]
  | number i =>
    simp only [printJson, intChars]
    split
    · simp
    · exact natChars_ne_nil _
  | _ => simp [printJson]

theorem printJson_head_not_close (v : Json) :
    ∀ c, (printJson v).head? = some c → c ≠ ']' ∧ c ≠ '\x7d' := by
  cases v with
  | boolean b => cases b <;> (intro c hc; simp [printJson] at hc; subst hc; decide)
  | number i =>
    intro c hc
    simp only [printJson, intChars] at hc
    split at hc
    · simp at hc; subst hc; decide
    · rcases hn : natChars i.natAbs with _ | ⟨d, ds⟩
      · exact absurd hn (natChars_ne_nil _)
      · rw [hn] at hc
        simp at hc
        subst hc
        have hd : d.isDigit = true :=
          natDigits_digits _ _ (Nat.lt_succ_self _) d (by rw [natChars] at hn; rw [hn]; simp)
        exact ⟨(digit_not_special hd).2.2.2.2.2.2.2.1, (digit_not_special hd).2.2.2.2.2.2.2.2⟩
  | _ => intro c hc; simp [printJson] at hc; subst hc; decide

theorem printElems_head (x : Json) (xs : List Json) :
    ∃ d t, printElems (x :: xs) = d :: t ∧ (printJson x).head? = some d := by
  rcases hp : printJson x with _ | ⟨d, t0⟩
  · exact absurd hp (printJson_ne_nil x)
  · cases xs with
    | nil => exact ⟨d, t0, by simp [printElems, hp], by simp⟩
    | cons y ys => exact ⟨d, t0 ++ ',' :: printElems (y :: ys), by simp [printElems, hp], by simp⟩

theorem printMembers_head (kv : String × Json) (fs : List (String × Json)) :
    ∃ t, printMembers (kv :: fs) = '"' :: t := by
  rcases kv with ⟨k, v⟩
  cases fs with
  | nil => exact ⟨escapeStr k.data ++ '"' :: ':' :: printJson v, by simp [printMembers]⟩
  | cons m fs =>
    exact ⟨escapeStr k.data ++ '"' :: ':' :: printJson v ++ ',' :: printMembers (m :: fs),
      by simp [printMembers]⟩

theorem parse_printJson : ∀ fuel : Nat,
    (∀ v rest, jsize v ≤ fuel → (∀ c, rest.head? = some c → c.isDigit = false) →
      parseVal fuel (printJson v ++ rest) = some (v, rest)) ∧
    (∀ x xs rest, elemsSize (x :: xs) ≤ fuel →
      parseElems fuel (printElems (x :: xs) ++ ']' :: rest) = some (x :: xs, rest)) ∧
    (∀ kv fs rest, membersSize (kv :: fs) ≤ fuel →
      parseMembers fuel (printMembers (kv :: fs) ++ '\x7d' :: rest) = some (kv :: fs, rest)) := by
  intro fuel
  induction fuel with
  | zero =>
    refine ⟨?_, ?_, ?_⟩
    · intro v rest hsz _; exact absurd hsz (by have := jsize_pos v; omega)
    · intro x xs rest hsz; exact absurd hsz (by have := elemsSize_pos (x :: xs); omega)
    · intro kv fs rest hsz; exact absurd hsz (by have := membersSize_pos (kv :: fs); omega)
  | succ f ih =>
    obtain ⟨ihV, ihE, ihM⟩ := ih
    refine ⟨?_, ?_, ?_⟩
    · intro v rest hsz hrest
      cases v with
      | null =>
        simp only [printJson, List.cons_append, List.nil_append]
        rw [parseVal.eq_def]
        simp +decide [expectPrefix, List.isPrefixOf]
      | boolean b =>
        cases b <;>
          (simp only [printJson, List.cons_append, List.nil_append]
           rw [parseVal.eq_def]
           simp +decide [expectPrefix, List.isPrefixOf])
      | string s =>
        simp only [printJson, List.cons_append, List.append_assoc, List.singleton_append]
        rw [parseVal.eq_def]
        simp +decide [parseStrBody_escape]
      | number i =>
        by_cases hi : i < 0
        · simp only [printJson, intChars, if_pos hi, List.cons_append]
          rw [parseVal.eq_def]
          have hn := parseNum_natChars i.natAbs rest hrest
          simp +decide [hn]
          rw [abs_of_neg hi, neg_neg]
        · have hne := natChars_ne_nil i.natAbs
          rcases hnat : natChars i.natAbs with _ | ⟨d, ds⟩
          · exact absurd hnat hne
          · have hd : d.isDigit = true := by
              have : d ∈ natChars i.natAbs := by rw [hnat]; exact List.mem_cons_self _ _
              rw [natChars] at this
              exact natDigits_digits _ _ (Nat.lt_succ_self _) d this
            obtain ⟨hn', ht', hf', hq', hbr', hbrc', hdash', _, _⟩ := digit_not_special hd
            have hn2 : parseNum (d :: (ds ++ rest)) = some (i.natAbs, rest) := by
              have := parseNum_natChars i.natAbs rest hrest
              rw [hnat] at this
              simpa using this
            simp only [printJson, intChars, if_neg hi, hnat, List.cons_append]
            rw [parseVal.eq_def]
            simp [hn', ht', hf', hq', hbr', hbrc', hdash', hd, hn2]
            omega
      | array xs =>
        cases xs with
        | nil =>
          simp only [printJson, printElems, List.nil_append, List.cons_append,
            List.singleton_append]
          rw [parseVal.eq_def]
          simp +decide
        | cons x xs =>
          obtain ⟨d, t, hpe, hdh⟩ := printElems_head x xs
          have hdc := (printJson_head_not_close x d hdh).1
          have hsz' : elemsSize (x :: xs) ≤ f := by
            simp only [jsize] at hsz; omega
          have hE := ihE x xs rest hsz'
          rw [hpe] at hE
          simp only [List.cons_append] at hE
          simp only [printJson, hpe, List.cons_append, List.append_assoc,
            List.singleton_append]
          rw [parseVal.eq_def]
          simp +decide [hdc, hE]
      | object fs =>
        cases fs with
        | nil =>
          simp only [printJson, printMembers, List.nil_append, List.cons_append,
            List.singleton_append]
          rw [parseVal.eq_def]
          simp +decide
        | cons kv fs =>
          obtain ⟨t, hpm⟩ := printMembers_head kv fs
          have hsz' : membersSize (kv :: fs) ≤ f := by
            simp only [jsize] at hsz; omega
          have hM := ihM kv fs rest hsz'
          rw [hpm] at hM
          simp only [List.cons_append] at hM
          simp only [printJson, hpm, List.cons_append, List.append_assoc,
            List.singleton_append]
          rw [parseVal.eq_def]
          simp +decide [hM]
    · intro x xs rest hsz
      cases xs with
      | nil =>
        have hj : jsize x ≤ f := by simp only [elemsSize] at hsz; omega
        have hV := ihV x (']' :: rest) hj (by intro c hc; simp at hc; subst hc; decide)
        simp only [printElems]
        rw [parseElems.eq_def]
        simp [hV]
      | cons y ys =>
        have hj : jsize x ≤ f ∧ elemsSize (y :: ys) ≤ f := by
          simp only [elemsSize] at hsz
          constructor <;> omega
        have hV := ihV x (',' :: (printElems (y :: ys) ++ ']' :: rest)) hj.1
          (by intro c hc; simp at hc; subst hc; decide)
        have hE := ihE y ys rest hj.2
        simp only [printElems, List.cons_append, List.append_assoc]
        rw [parseElems.eq_def]
        simp [hV, hE]
    · intro kv fs rest hsz
      rcases kv with ⟨k, v⟩
      cases fs with
      | nil =>
        have hj : jsize v ≤ f := by simp only [membersSize] at hsz; omega
        have hV := ihV v ('\x7d' :: rest) hj (by intro c hc; simp at hc; subst hc; decide)
        simp only [printMembers, List.cons_append, List.append_assoc]
        rw [parseMembers.eq_def]
        simp [parseStrBody_escape, hV]
      | cons m fs' =>
        have hj : jsize v ≤ f ∧ membersSize (m :: fs') ≤ f := by
          simp only [membersSize] at hsz
          constructor <;> omega
        have hV := ihV v (',' :: (printMembers (m :: fs') ++ '\x7d' :: rest)) hj.1
          (by intro c hc; simp at hc; subst hc; decide)
        have hM := ihM m fs' rest hj.2
        simp only [printMembers, List.cons_append, List.append_assoc]
        rw [parseMembers.eq_def]
        simp [parseStrBody_escape, hV, hM]

theorem jsize_le_printLen : ∀ n : Nat,
    (∀ v : Json, (printJson v).length ≤ n → jsize v ≤ (printJson v).length + 1) ∧
    (∀ (x : Json) (xs : List Json), (printElems (x :: xs)).length ≤ n →
      elemsSize (x :: xs) ≤ (printElems (x :: xs)).length + 2) ∧
    (∀ (kv : String × Json) (fs : List (String × Json)), (printMembers (kv :: fs)).length ≤ n →
      membersSize (kv :: fs) ≤ (printMembers (kv :: fs)).length + 2) := by
  intro n
  induction n using Nat.strong_induction_on with
  | _ n ih =>
    have HA : ∀ v : Json, (printJson v).length ≤ n → jsize v ≤ (printJson v).length + 1 := by
      intro v hv
      cases v with
      | null => simp [jsize, printJson]
      | boolean b => cases b <;> simp [jsize, printJson]
      | number i => simp only [jsize]; omega
      | string s => simp only [jsize]; omega
      | array xs =>
        cases xs with
        | nil => simp [jsize, printJson, printElems]
        | cons x xs =>
          have hlt : (printElems (x :: xs)).length < n := by
            simp only [printJson, List.length_cons, List.length_append,
              List.length_singleton] at hv
            omega
          have hrec := (ih _ hlt).2.1 x xs (le_refl _)
          simp only [jsize, printJson, List.length_cons, List.length_append,
            List.length_singleton]
          omega
      | object fs =>
        cases fs with
        | nil => simp [jsize, printJson, printMembers]
        | cons kv fs =>
          have hlt : (printMembers (kv :: fs)).length < n := by
            simp only [printJson, List.length_cons, List.length_append,
              List.length_singleton] at hv
            omega
          have hrec := (ih _ hlt).2.2 kv fs (le_refl _)
          simp only [jsize, printJson, List.length_cons, List.length_append,
            List.length_singleton]
          omega
    have HB : ∀ (x : Json) (xs : List Json), (printElems (x :: xs)).length ≤ n →
        elemsSize (x :: xs) ≤ (printElems (x :: xs)).length + 2 := by
      intro x xs hx
      cases xs with
      | nil =>
        have := HA x (by simpa [printElems] using hx)
        simp only [elemsSize, printElems] at *
        omega
      | cons y ys =>
        have hlen : (printJson x).length + ((printElems (y :: ys)).length + 1) ≤ n := by
          simpa [printElems] using hx
        have h1 := HA x (by omega)
        have h2 : (printElems (y :: ys)).length < n := by omega
        have hrec := (ih _ h2).2.1 y ys (le_refl _)
        simp only [elemsSize, printElems, List.length_append, List.length_cons]
        omega
    have HC : ∀ (kv : String × Json) (fs : List (String × Json)),
        (printMembers (kv :: fs)).length ≤ n →
        membersSize (kv :: fs) ≤ (printMembers (kv :: fs)).length + 2 := by
      intro kv fs hx
      rcases kv with ⟨k, v⟩
      cases fs with
      | nil =>
        have hlen : (escapeStr k.data).length + ((printJson v).length + 1 + 1) + 1 ≤ n := by
          simpa [printMembers] using hx
        have := HA v (by omega)
        simp only [membersSize, printMembers, List.length_cons, List.length_append]
        omega
      | cons m fs' =>
        have hlen : (escapeStr k.data).length +
            ((printJson v).length + ((printMembers (m :: fs')).length + 1) + 1 + 1) + 1 ≤ n := by
          simpa [printMembers] using hx
        have h1 := HA v (by omega)
        have h2 : (printMembers (m :: fs')).length < n := by omega
        have hrec := (ih _ h2).2.2 m fs' (le_refl _)
        simp only [membersSize, printMembers, List.length_cons, List.length_append]
        omega
    exact ⟨HA, HB, HC⟩

/-- Round trip: parsing the serializer's output recovers the value, i.e. the
model of `serde_json::from_str` inverts the model of `serde_json::to_string`. -/
theorem jsonFromStr_jsonToString (v : Json) : jsonFromStr (jsonToString v) = some v := by
  have hsz : jsize v ≤ (printJson v).length + 1 :=
    (jsize_le_printLen (printJson v).length).1 v (le_refl _)
  have h := (parse_printJson ((printJson v).length + 1)).1 v [] hsz
    (by intro c hc; simp at hc)
  simp only [List.append_nil] at h
  simp only [jsonFromStr, jsonToString]
  rw [h]

/-!
 ### Claim theorems
-/

/-- C1: every exec invocation whose command contains (case-insensitively, as
a substring) one of the dangerous patterns is blocked before any subprocess
step: `exec_gate` yields `blocked` (never `spawn`) and `execute` returns a
failure `ToolResult` with content `"Command blocked: <reason>"`; a command
containing `rm -rf /` is blocked with reason
`"Attempted to delete root filesystem"`; in `"restricted"` security mode a
command containing a shell metacharacter is likewise rejected before
execution. -/
theorem C1_dangerous_commands_blocked (tool : ExecTool) (params : ExecParams)
    (proc : ProcBehaviour) :
    ((∃ pm ∈ dangerous_patterns,
        listContainsSub pm.1.data (to_lowercase params.command).data = true) →
      ∃ reason,
        is_dangerous_command tool params.command = some reason ∧
        exec_gate tool params = .blocked (toolResultError ("Command blocked: " ++ reason)) ∧
        execute tool params proc = toolResultError ("Command blocked: " ++ reason)) ∧
    (listContainsSub "rm -rf /".data (to_lowercase params.command).data = true →
      execute tool params proc =
        toolResultError "Command blocked: Attempted to delete root filesystem") ∧
    (tool.security_mode = "restricted" →
      params.command.data.any (fun c => dangerous_chars.contains c) = true →
      ∃ reason,
        exec_gate tool params = .blocked (toolResultError ("Command blocked: " ++ reason)) ∧
        execute tool params proc = toolResultError ("Command blocked: " ++ reason)) := by
  refine ⟨?_, ?_, ?_⟩
  · rintro ⟨pm, hmem, hsub⟩
    have hfind : (dangerous_patterns.find? (fun pm =>
        listContainsSub pm.1.data (to_lowercase params.command).data)).isSome := by
      rw [List.find?_isSome]
      exact ⟨pm, hmem, hsub⟩
    obtain ⟨pm', hpm'⟩ := Option.isSome_iff_exists.mp hfind
    refine ⟨pm'.2, ?_, ?_, ?_⟩
    · simp only [is_dangerous_command, hpm']
    · simp only [exec_gate, is_dangerous_command, hpm']
    · simp only [execute, exec_gate, is_dangerous_command, hpm']
  · intro hsub
    have hdc : is_dangerous_command tool params.command =
        some "Attempted to delete root filesystem" := by
      simp only [is_dangerous_command, dangerous_patterns, List.find?, hsub]
    simp only [execute, exec_gate, hdc]
    rfl
  · intro hmode hany
    rcases hfind : dangerous_patterns.find? (fun pm =>
        listContainsSub pm.1.data (to_lowercase params.command).data) with _ | pm
    · refine ⟨"Shell metacharacters not allowed in restricted mode", ?_, ?_⟩ <;>
        simp only [execute, exec_gate, is_dangerous_command, hfind, hmode, if_pos rfl, hany,
          if_pos rfl, if_true]
    · refine ⟨pm.2, ?_, ?_⟩ <;>
        simp only [execute, exec_gate, is_dangerous_command, hfind]

/-- C1 witness: `"sudo RM -rf / --force"` is blocked with the
root-filesystem reason for the default tool and for any subprocess
behaviour, and `"ls | wc"` is blocked in restricted mode. -/
theorem C1_dangerous_commands_blocked_witness :
    execute ExecTool.new ⟨"sudo RM -rf / --force", none, none, []⟩
        (.runs 0 "" "" (some 0) true) =
      toolResultError "Command blocked: Attempted to delete root filesystem" ∧
    (∃ reason,
      exec_gate (ExecTool.with_config 60 "restricted") ⟨"ls | wc", none, none, []⟩ =
        .blocked (toolResultError ("Command blocked: " ++ reason)) ∧
      execute (ExecTool.with_config 60 "restricted") ⟨"ls | wc", none, none, []⟩
          (.runs 0 "" "" (some 0) true) =
        toolResultError ("Command blocked: " ++ reason)) :=
  ⟨(C1_dangerous_commands_blocked ExecTool.new ⟨"sudo RM -rf / --force", none, none, []⟩
      (.runs 0 "" "" (some 0) true)).2.1 (by decide),
   (C1_dangerous_commands_blocked (ExecTool.with_config 60 "restricted")
      ⟨"ls | wc", none, none, []⟩ (.runs 0 "" "" (some 0) true)).2.2 (by decide) (by decide)⟩

/-- C5: when the exec subprocess completes within the timeout, the returned
content is the combined stdout/stderr text, truncated to its first 50000
bytes with the marker `"\n\n[Output truncated at 50000 characters]"`
appended exactly when that text exceeds 50000 bytes, and returned unmodified
(no marker) otherwise. -/
theorem C5_exec_output_truncation (tool : ExecTool) (params : ExecParams)
    (d : Nat) (stdout stderr : String) (exit_code : Option Int) (ok : Bool)
    (hsafe : is_dangerous_command tool params.command = none)
    (hd : d ≤ min (params.timeout.getD 60) tool.max_timeout) :
    ((exec_result_text stdout stderr ok (exit_code.getD (-1))).length > 50000 →
      (execute tool params (.runs d stdout stderr exit_code ok)).content =
        String.mk ((exec_result_text stdout stderr ok (exit_code.getD (-1))).data.take 50000) ++
          "\n\n[Output truncated at 50000 characters]") ∧
    ((exec_result_text stdout stderr ok (exit_code.getD (-1))).length ≤ 50000 →
      (execute tool params (.runs d stdout stderr exit_code ok)).content =
        exec_result_text stdout stderr ok (exit_code.getD (-1))) := by
  have hmarker : String.mk (natChars 50000) = "50000" := by decide
  have hnotlt : ¬ (min (params.timeout.getD 60) tool.max_timeout < d) := by omega
  have hcontent : (execute tool params (.runs d stdout stderr exit_code ok)).content =
      exec_truncate (exec_result_text stdout stderr ok (exit_code.getD (-1))) := by
    simp only [execute, exec_gate, hsafe, if_neg hnotlt]
    cases ok <;> rfl
  constructor
  · intro hlen
    rw [hcontent, exec_truncate, if_pos hlen, hmarker, String.append_assoc,
      String.append_assoc]
    have hlit : ("\n\n[Output truncated at " ++ ("50000" ++ " characters]") : String) =
        "\n\n[Output truncated at 50000 characters]" := by decide
    rw [hlit]
  · intro hlen
    have hnot : ¬ ((exec_result_text stdout stderr ok (exit_code.getD (-1))).length > 50000) := by
      omega
    rw [hcontent, exec_truncate, if_neg hnot]

/-- C5 witness: a short combined output is returned unmodified. -/
theorem C5_exec_output_truncation_witness :
    (execute ExecTool.new ⟨"echo hi", none, none, []⟩
        (.runs 1 "hi\n" "warn" (some 0) true)).content = "hi\n\n--- stderr ---\nwarn" :=
  ((C5_exec_output_truncation ExecTool.new ⟨"echo hi", none, none, []⟩ 1 "hi\n" "warn"
      (some 0) true (by decide) (by decide)).2 (by decide)).trans (by decide)

/-- C6: the enforced timeout of an exec invocation is
`min(requested, max_timeout)` with 60 as the default request and 300 as
`ExecTool::new`'s cap, and a subprocess exceeding it yields a failure
result whose content names exactly that number of seconds. -/
theorem C6_exec_timeout_clamped (tool : ExecTool) (params : ExecParams)
    (hsafe : is_dangerous_command tool params.command = none) :
    (exec_gate tool params =
      .spawn params.command (min (params.timeout.getD 60) tool.max_timeout)) ∧
    (params.timeout = none →
      exec_gate tool params = .spawn params.command (min 60 tool.max_timeout)) ∧
    ExecTool.new.max_timeout = 300 ∧
    (∀ d stdout stderr exit_code ok,
      min (params.timeout.getD 60) tool.max_timeout < d →
      execute tool params (.runs d stdout stderr exit_code ok) =
        toolResultError ("Command timed out after " ++
          String.mk (natChars (min (params.timeout.getD 60) tool.max_timeout)) ++
          " seconds. Consider increasing timeout or running in background.")) := by
  refine ⟨?_, ?_, rfl, ?_⟩
  · simp only [exec_gate, hsafe]
  · intro hnone; simp only [exec_gate, hsafe, hnone, Option.getD_none]
  · intro d stdout stderr exit_code ok hlt
    simp only [execute, exec_gate, hsafe, if_pos hlt]

/-- C6 witness: with `ExecTool::new` and a requested timeout of 400 seconds,
the enforced timeout is 300 seconds, and a 301-second subprocess is reported
as timed out after exactly 300 seconds. -/
theorem C6_exec_timeout_clamped_witness :
    exec_gate ExecTool.new ⟨"sleep 301", none, some 400, []⟩ = .spawn "sleep 301" 300 ∧
    execute ExecTool.new ⟨"sleep 301", none, some 400, []⟩ (.runs 301 "" "" none true) =
      toolResultError
        "Command timed out after 300 seconds. Consider increasing timeout or running in background." := by
  have h := C6_exec_timeout_clamped ExecTool.new ⟨"sleep 301", none, some 400, []⟩ (by decide)
  refine ⟨h.1.trans (by rfl), ?_⟩
  have h2 := h.2.2.2 301 "" "" none true (by decide)
  exact h2.trans (by rfl)

/-- C2: every reply the OpenAI adapter builds from a provider response has
`stop_reason = "tool_use"` exactly when the provider `finish_reason` equals
`"tool_calls"` or the parsed tool-call list is non-empty, and
`stop_reason = "end_turn"` otherwise; consequently a reply with a non-empty
tool-call list always has `stop_reason = "tool_use"`. -/
theorem C2_stop_reason_tool_use (resp : OpenAICompletionResponse) (choice : OpenAIChoice)
    (r : AiResponse)
    (hc : resp.choices.head? = some choice)
    (hr : parse_success_response resp = .ok r) :
    (r.stop_reason = some "tool_use" ↔
      (choice.finish_reason = some "tool_calls" ∨ r.tool_calls ≠ [])) ∧
    (r.stop_reason = some "tool_use" ∨ r.stop_reason = some "end_turn") ∧
    (r.tool_calls ≠ [] → r.stop_reason = some "tool_use") := by
  rw [parse_success_response, hc] at hr
  simp only [] at hr
  have hrr := (Except.ok.injEq _ _).mp hr
  subst hrr
  by_cases hbeq : choice.finish_reason = some "tool_calls" <;>
  by_cases hnil : ((choice.message.tool_calls.getD []).map parse_tool_call) = [] <;>
    simp +decide [hbeq, hnil]

/-- C2 witness: a response with one tool call and `finish_reason = "stop"`
still gets `stop_reason = "tool_use"`. -/
theorem C2_stop_reason_tool_use_witness :
    ∃ r : AiResponse,
      parse_success_response
        ⟨[⟨⟨some "calling", some [⟨"c1", "function", ⟨"exec", "\x7b\x7d"⟩⟩]⟩,
           some "stop"⟩]⟩ = .ok r ∧
      (r.stop_reason = some "tool_use" ↔
        ((some "stop" : Option String) = some "tool_calls" ∨ r.tool_calls ≠ [])) ∧
      r.stop_reason = some "tool_use" := by
  refine ⟨⟨"calling", [⟨"c1", "exec", .object []⟩], some "tool_use"⟩, rfl, ?_, rfl⟩
  exact (C2_stop_reason_tool_use
    ⟨[⟨⟨some "calling", some [⟨"c1", "function", ⟨"exec", "\x7b\x7d"⟩⟩]⟩, some "stop"⟩]⟩
    ⟨⟨some "calling", some [⟨"c1", "function", ⟨"exec", "\x7b\x7d"⟩⟩]⟩, some "stop"⟩
    ⟨"calling", [⟨"c1", "exec", .object []⟩], some "tool_use"⟩ rfl rfl).1

/-- C7: every provider tool call is kept in the parsed tool-call list (the
list is a map over the provider list, preserving order and length, with the
original id and name), and a call whose `function.arguments` string fails to
parse as JSON gets the empty JSON object as its arguments. -/
theorem C7_unparsable_arguments_become_empty_object (resp : OpenAICompletionResponse)
    (choice : OpenAIChoice) (calls : List OpenAIToolCall) (r : AiResponse)
    (hc : resp.choices.head? = some choice)
    (htc : choice.message.tool_calls = some calls)
    (hr : parse_success_response resp = .ok r) :
    r.tool_calls = calls.map parse_tool_call ∧
    r.tool_calls.length = calls.length ∧
    (∀ tc, parse_tool_call tc = ⟨tc.id, tc.function.name,
      (jsonFromStr tc.function.arguments).getD (.object [])⟩) ∧
    (∀ tc, jsonFromStr tc.function.arguments = none →
      parse_tool_call tc = ⟨tc.id, tc.function.name, .object []⟩) := by
  rw [parse_success_response, hc] at hr
  simp only [] at hr
  have hrr := (Except.ok.injEq _ _).mp hr
  subst hrr
  refine ⟨by simp [htc], by simp [htc], fun tc => rfl, fun tc hnone => ?_⟩
  simp [parse_tool_call, hnone]

/-- C7 witness: a tool call whose arguments string is not JSON is kept with
its id and name and the empty-object arguments. -/
theorem C7_unparsable_arguments_become_empty_object_witness :
    ∃ r : AiResponse,
      parse_success_response
        ⟨[⟨⟨none, some [⟨"c9", "function", ⟨"exec", "not json"⟩⟩]⟩, none⟩]⟩ = .ok r ∧
      r.tool_calls = [⟨"c9", "exec", .object []⟩] := by
  refine ⟨⟨"", [⟨"c9", "exec", .object []⟩], some "tool_use"⟩, rfl, ?_⟩
  have h := C7_unparsable_arguments_become_empty_object
    ⟨[⟨⟨none, some [⟨"c9", "function", ⟨"exec", "not json"⟩⟩]⟩, none⟩]⟩
    ⟨⟨none, some [⟨"c9", "function", ⟨"exec", "not json"⟩⟩]⟩, none⟩
    [⟨"c9", "function", ⟨"exec", "not json"⟩⟩]
    ⟨"", [⟨"c9", "exec", .object []⟩], some "tool_use"⟩ rfl rfl rfl
  rw [h.1]
  have hbad : jsonFromStr "not json" = none := by rfl
  rw [List.map_cons, List.map_nil, h.2.2.2 ⟨"c9", "function", ⟨"exec", "not json"⟩⟩ hbad]

/-- C3 counterexample: on a well-formed response whose `choices` list is
empty, the adapter returns the `error` variant of its `Result` (the Rust
`Err(String)`), not an `AiResponse`; in particular no reply with
`stop_reason = "error"` is produced, contradicting the claim that failures
are surfaced as an `AgentReply` with `stop_reason = error`. -/
theorem C3_counterexample_err_not_reply :
    handle_provider_response (.response 200 "\x7b\"choices\":[]\x7d") =
      .error "OpenAI API returned no choices" ∧
    ¬∃ r : AiResponse,
      handle_provider_response (.response 200 "\x7b\"choices\":[]\x7d") = .ok r ∧
      r.stop_reason = some "error" := by
  refine ⟨rfl, ?_⟩
  rintro ⟨r, hr, _⟩
  rw [(rfl : handle_provider_response (.response 200 "\x7b\"choices\":[]\x7d") =
    .error "OpenAI API returned no choices")] at hr
  exact Except.noConfusion hr

/-- C3 amended: whenever the provider HTTP interaction fails — network
failure, non-success HTTP status, unparsable response body, or an empty
choices list — `generate_with_tools_internal` surfaces the failure to its
caller as the `Err` variant of its `Result`, carrying the diagnostic string;
it never produces an `AiResponse` for these cases. -/
theorem C3_failures_surface_as_result_err :
    (∀ e, handle_provider_response (.netFail e) =
      .error ("OpenAI API request failed: " ++ e)) ∧
    (∀ status body, ¬(200 ≤ status ∧ status < 300) →
      ∃ d, handle_provider_response (.response status body) = .error d) ∧
    (∀ status body, 200 ≤ status ∧ status < 300 →
      (jsonFromStr body).bind decodeCompletionResponse = none →
      handle_provider_response (.response status body) =
        .error "Failed to parse OpenAI response: invalid body") ∧
    (∀ status body resp, 200 ≤ status ∧ status < 300 →
      (jsonFromStr body).bind decodeCompletionResponse = some resp →
      resp.choices = [] →
      handle_provider_response (.response status body) =
        .error "OpenAI API returned no choices") := by
  refine ⟨fun e => rfl, ?_, ?_, ?_⟩
  · intro status body hs
    rw [handle_provider_response, if_neg hs]
    rcases h : (jsonFromStr body).bind decodeErrorResponse with _ | msg
    · exact ⟨_, rfl⟩
    · exact ⟨_, rfl⟩
  · intro status body hs hparse
    rw [handle_provider_response, if_pos hs, hparse]
  · intro status body resp hs hparse hchoices
    rw [handle_provider_response, if_pos hs, hparse]
    show parse_success_response resp = _
    rw [parse_success_response.eq_def, hchoices]
    rfl

/-- C3 amended witness: concrete instances of all four failure classes. -/
theorem C3_failures_surface_as_result_err_witness :
    handle_provider_response (.netFail "connection refused") =
      .error ("OpenAI API request failed: " ++ "connection refused") ∧
    (∃ d, handle_provider_response (.response 500 "oops") = .error d) ∧
    handle_provider_response (.response 200 "not json") =
      .error "Failed to parse OpenAI response: invalid body" ∧
    handle_provider_response (.response 200 "\x7b\"choices\":[]\x7d") =
      .error "OpenAI API returned no choices" :=
  ⟨C3_failures_surface_as_result_err.1 "connection refused",
   C3_failures_surface_as_result_err.2.1 500 "oops" (by omega),
   C3_failures_surface_as_result_err.2.2.1 200 "not json" (by omega) (by rfl),
   C3_failures_surface_as_result_err.2.2.2 200 "\x7b\"choices\":[]\x7d" ⟨[]⟩ (by omega)
     (by rfl) rfl⟩

/-- C4: `build_tool_result_messages` emits exactly one assistant message
with null content carrying the tool calls in input order (same id and name,
arguments JSON-serialized), immediately followed by one `role = "tool"`
message per response in response order with that response's `tool_call_id`
and content; and parsing an emitted arguments string back from JSON recovers
the original argument value. -/
theorem C4_tool_result_messages_shape (tool_calls : List ToolCall)
    (tool_responses : List ToolResponse) :
    (build_tool_result_messages tool_calls tool_responses).head? =
      some (OpenAIMessage.mk "assistant" none
        (some (tool_calls.map (fun tc => OpenAIToolCall.mk tc.id "function"
          (OpenAIFunctionCall.mk tc.name (jsonToString tc.arguments))))) none) ∧
    (build_tool_result_messages tool_calls tool_responses).tail =
      tool_responses.map (fun r =>
        OpenAIMessage.mk "tool" (some r.content) none (some r.tool_call_id)) ∧
    (build_tool_result_messages tool_calls tool_responses).length =
      1 + tool_responses.length ∧
    (∀ tc ∈ tool_calls, jsonFromStr (jsonToString tc.arguments) = some tc.arguments) := by
  refine ⟨rfl, rfl, ?_, fun tc _ => jsonFromStr_jsonToString tc.arguments⟩
  simp [build_tool_result_messages]
  omega

/-- C4 witness: one concrete tool call and response, with the arguments
round-tripping through serialization. -/
theorem C4_tool_result_messages_shape_witness :
    (build_tool_result_messages [⟨"c1", "exec", .object [("command", .string "echo hi")]⟩]
        [⟨"c1", "hi", false⟩]).head? =
      some (OpenAIMessage.mk "assistant" none
        (some [⟨"c1", "function", ⟨"exec", "\x7b\"command\":\"echo hi\"\x7d"⟩⟩]) none) ∧
    jsonFromStr (jsonToString (.object [("command", .string "echo hi")])) =
      some (.object [("command", .string "echo hi")]) :=
  ⟨(C4_tool_result_messages_shape [⟨"c1", "exec", .object [("command", .string "echo hi")]⟩]
      [⟨"c1", "hi", false⟩]).1.trans (by rfl),
   (C4_tool_result_messages_shape [⟨"c1", "exec", .object [("command", .string "echo hi")]⟩]
      [⟨"c1", "hi", false⟩]).2.2.2 _ (List.mem_singleton.mpr rfl)⟩

theorem sortByKey_sorted (l : List (String × Json)) :
    (sortByKey l).Pairwise (fun a b => a.1 ≤ b.1) := by
  have h := @List.sorted_mergeSort (String × Json)
    (fun a b => decide (a.1 ≤ b.1))
    (fun a b c h1 h2 => by
      simp only [decide_eq_true_eq] at *
      exact le_trans h1 h2)
    (fun a b => by
      simp only [Bool.or_eq_true, decide_eq_true_eq]
      exact le_total a.1 b.1)
    l
  refine h.imp ?_
  intro a b hab
  simpa using hab

theorem sortByKey_perm (l : List (String × Json)) : (sortByKey l).Perm l :=
  List.mergeSort_perm l _

theorem sortByKey_strict_sorted {l : List (String × Json)}
    (hnd : (l.map Prod.fst).Nodup) :
    (sortByKey l).Pairwise (fun a b => a.1 < b.1) := by
  have hnd2 : ((sortByKey l).map Prod.fst).Nodup :=
    (((sortByKey_perm l).map Prod.fst).nodup_iff).mpr hnd
  have hne : (sortByKey l).Pairwise (fun a b => a.1 ≠ b.1) := by
    rw [List.Nodup, List.pairwise_map] at hnd2
    exact hnd2
  exact ((sortByKey_sorted l).and hne).imp (fun h => lt_of_le_of_ne h.1 h.2)

/-- Permutation invariance of the `serde_json::Map` model: two association
lists that are permutations of each other with duplicate-free keys produce
the same sorted member list — the reason a `HashMap`'s iteration order does
not leak into the serialized request. -/
theorem sortByKey_eq_of_perm {l l' : List (String × Json)} (h : l.Perm l')
    (hnd : (l.map Prod.fst).Nodup) : sortByKey l = sortByKey l' := by
  have hnd' : (l'.map Prod.fst).Nodup := ((h.map Prod.fst).nodup_iff).mp hnd
  have hp : (sortByKey l).Perm (sortByKey l') :=
    (sortByKey_perm l).trans (h.trans (sortByKey_perm l').symm)
  haveI : IsAntisymm (String × Json) (fun a b => a.1 < b.1) :=
    ⟨fun a b h1 h2 => absurd (lt_trans h1 h2) (lt_irrefl _)⟩
  exact List.eq_of_perm_of_sorted hp (sortByKey_strict_sorted hnd)
    (sortByKey_strict_sorted hnd')

/-- C8: the adapter's request construction is a pure function of its inputs
— in particular the serialized payload does not depend on the iteration
order of the property `HashMap` (any permutation of the properties with
duplicate-free keys yields a byte-identical payload); the `messages` list is
the canonical messages in input order followed by the tool history in input
order; `tools` (in input order) and `tool_choice = "auto"` are included
exactly when the tool-definition list is non-empty. -/
theorem C8_request_construction_deterministic (model : String) (messages : List Message)
    (tool_history : List OpenAIMessage) (tools tools' : List ToolDefinition)
    (hrel : List.Forall₂ (fun t t' =>
      t.name = t'.name ∧ t.description = t'.description ∧
      t.input_schema.schema_type = t'.input_schema.schema_type ∧
      t.input_schema.required = t'.input_schema.required ∧
      t.input_schema.properties.Perm t'.input_schema.properties) tools tools')
    (hnd : ∀ t ∈ tools, (t.input_schema.properties.map Prod.fst).Nodup) :
    build_request model messages tool_history tools =
      build_request model messages tool_history tools' ∧
    request_payload model messages tool_history tools =
      request_payload model messages tool_history tools' ∧
    (build_request model messages tool_history tools).messages =
      messages.map (fun m => OpenAIMessage.mk m.role (some m.content) none none)
        ++ tool_history ∧
    (tools = [] →
      (build_request model messages tool_history tools).tools = none ∧
      (build_request model messages tool_history tools).tool_choice = none) ∧
    (tools ≠ [] →
      (build_request model messages tool_history tools).tools =
        some (tools.map (fun t => OpenAITool.mk "function"
          (OpenAIFunction.mk t.name t.description (mkParameters t.input_schema)))) ∧
      (build_request model messages tool_history tools).tool_choice = some "auto") := by
  have hmap : ∀ (ts ts' : List ToolDefinition), List.Forall₂ (fun t t' =>
      t.name = t'.name ∧ t.description = t'.description ∧
      t.input_schema.schema_type = t'.input_schema.schema_type ∧
      t.input_schema.required = t'.input_schema.required ∧
      t.input_schema.properties.Perm t'.input_schema.properties) ts ts' →
      (∀ t ∈ ts, (t.input_schema.properties.map Prod.fst).Nodup) →
      ts.map (fun t => OpenAITool.mk "function"
          (OpenAIFunction.mk t.name t.description (mkParameters t.input_schema))) =
        ts'.map (fun t => OpenAITool.mk "function"
          (OpenAIFunction.mk t.name t.description (mkParameters t.input_schema))) := by
    intro ts ts' hf
    induction hf with
    | nil => intro _; rfl
    | cons hh ht ih =>
      intro hndc
      obtain ⟨hname, hdesc, hschema, hreq, hperm⟩ := hh
      have hkeys : ∀ (props : List (String × PropertySchema)),
          ((props.map (fun kv => (kv.1, Json.object [("description", .string kv.2.description),
            ("type", .string kv.2.schema_type)]))).map Prod.fst) = props.map Prod.fst := by
        intro props
        rw [List.map_map]
        rfl
      have hsort := sortByKey_eq_of_perm
        (hperm.map (fun kv => (kv.1, Json.object [("description", .string kv.2.description),
          ("type", .string kv.2.schema_type)])))
        (by rw [hkeys]; exact hndc _ (List.mem_cons_self _ _))
      simp only [List.map_cons, List.cons.injEq]
      refine ⟨?_, ih (fun t ht' => hndc t (List.mem_cons_of_mem _ ht'))⟩
      simp only [OpenAITool.mk.injEq, OpenAIFunction.mk.injEq, true_and]
      exact ⟨hname, hdesc, by simp only [mkParameters, hsort, hschema, hreq]⟩
  have hlen := hrel.length_eq
  have hemp : tools.isEmpty = tools'.isEmpty := by
    cases tools <;> cases tools' <;> simp_all
  have hreq : build_request model messages tool_history tools =
      build_request model messages tool_history tools' := by
    simp only [build_request, hemp]
    rcases hemp' : tools'.isEmpty with _ | _
    · simp only [hemp', Bool.false_eq_true, if_false, OpenAICompletionRequest.mk.injEq,
        true_and, and_true]
      exact congrArg some (hmap tools tools' hrel hnd)
    · simp
  refine ⟨hreq, by simp only [request_payload, hreq], rfl, ?_, ?_⟩
  · rintro rfl
    simp [build_request]
  · intro hne
    have : tools.isEmpty = false := by
      cases tools
      · exact absurd rfl hne
      · rfl
    simp [build_request, this]

/-- C8 witness: reordering the two properties of a tool's schema leaves the
request and its payload byte-identical, and with a non-empty tool list
`tool_choice = "auto"` is included. -/
theorem C8_request_construction_deterministic_witness :
    request_payload "gpt-4o" [⟨"user", "hi"⟩] []
        [⟨"exec", "run", ⟨"object",
          [("command", ⟨"string", "the command", none, none, none⟩),
           ("timeout", ⟨"integer", "seconds", none, none, none⟩)], ["command"]⟩, "Exec"⟩] =
      request_payload "gpt-4o" [⟨"user", "hi"⟩] []
        [⟨"exec", "run", ⟨"object",
          [("timeout", ⟨"integer", "seconds", none, none, none⟩),
           ("command", ⟨"string", "the command", none, none, none⟩)], ["command"]⟩, "Exec"⟩] ∧
    (build_request "gpt-4o" [⟨"user", "hi"⟩] []
        [⟨"exec", "run", ⟨"object",
          [("command", ⟨"string", "the command", none, none, none⟩),
           ("timeout", ⟨"integer", "seconds", none, none, none⟩)], ["command"]⟩,
          "Exec"⟩]).tool_choice = some "auto" := by
  have h := C8_request_construction_deterministic "gpt-4o" [⟨"user", "hi"⟩] []
    [⟨"exec", "run", ⟨"object",
      [("command", ⟨"string", "the command", none, none, none⟩),
       ("timeout", ⟨"integer", "seconds", none, none, none⟩)], ["command"]⟩, "Exec"⟩]
    [⟨"exec", "run", ⟨"object",
      [("timeout", ⟨"integer", "seconds", none, none, none⟩),
       ("command", ⟨"string", "the command", none, none, none⟩)], ["command"]⟩, "Exec"⟩]
    (List.Forall₂.cons ⟨rfl, rfl, rfl, rfl, List.Perm.swap _ _ _⟩ List.Forall₂.nil)
    (by decide)
  exact ⟨h.2.1, (h.2.2.2.2 (List.cons_ne_nil _ _)).2⟩

theorem map_id_of_eq {α : Type} {f : α → α} :
    ∀ l : List α, (∀ x ∈ l, f x = x) → l.map f = l := by
  intro l h
  induction l with
  | nil => rfl
  | cons a t ih =>
    simp only [List.map_cons, h a (List.mem_cons_self _ _),
      ih (fun x hx => h x (List.mem_cons_of_mem _ hx))]

theorem filter_eq_nil_of_all_false {α : Type} {p : α → Bool} :
    ∀ l : List α, (∀ x ∈ l, p x = false) → l.filter p = [] := by
  intro l h
  induction l with
  | nil => rfl
  | cons a t ih =>
    simp only [List.filter, h a (List.mem_cons_self _ _)]
    exact ih (fun x hx => h x (List.mem_cons_of_mem _ hx))

theorem find?_of_filter_eq_singleton {α : Type} {p : α → Bool} :
    ∀ (l : List α) (a : α), l.filter p = [a] → l.find? p = some a := by
  intro l
  induction l with
  | nil => intro a h; simp at h
  | cons b t ih =>
    intro a h
    rcases hb : p b with _ | _
    · rw [List.filter_cons_of_neg (by simp [hb])] at h
      rw [List.find?_cons_of_neg _ (by simp [hb])]
      exact ih a h
    · rw [List.filter_cons_of_pos (by simp [hb])] at h
      have := (List.cons.injEq _ _ _ _).mp h
      rw [List.find?_cons_of_pos _ (by simp [hb]), this.1]

/-- Update step of `save_agent_settings` on an already-all-disabled table
with duplicate-free ids: the first row carrying the endpoint is updated and
enabled, every other row is untouched, so exactly that row is enabled and is
found again by endpoint. -/
theorem save_update_branch (e arch : String) (mt : Int) (sk : Option String) (now : String) :
    ∀ (l : List AgentSettings), (∀ r ∈ l, r.enabled = false) →
    (l.map (fun r => r.id)).Nodup →
    ∀ r0, l.find? (fun r => r.endpoint = e) = some r0 →
    ((l.map (fun r => if r.id = r0.id then
        { r with model_archetype := arch, max_tokens := mt, secret_key := sk,
                 enabled := true, updated_at := now } else r)).find?
        (fun r => r.endpoint = e) =
      some { r0 with model_archetype := arch, max_tokens := mt, secret_key := sk,
                     enabled := true, updated_at := now } ∧
     (l.map (fun r => if r.id = r0.id then
        { r with model_archetype := arch, max_tokens := mt, secret_key := sk,
                 enabled := true, updated_at := now } else r)).filter
        (fun r => r.enabled) =
      [{ r0 with model_archetype := arch, max_tokens := mt, secret_key := sk,
                 enabled := true, updated_at := now }]) := by
  intro l
  induction l with
  | nil => intro _ _ r0 h0; simp at h0
  | cons h t ih =>
    intro hdis hnd r0 hfind
    by_cases hh : h.endpoint = e
    · rw [List.find?_cons_of_pos _ (by simp [hh])] at hfind
      have hr0 : r0 = h := (Option.some.injEq _ _).mp hfind.symm
      subst hr0
      have htail : t.map (fun r => if r.id = r0.id then
          { r with model_archetype := arch, max_tokens := mt, secret_key := sk,
                   enabled := true, updated_at := now } else r) = t := by
        refine map_id_of_eq t (fun x hx => ?_)
        have hne : x.id ≠ r0.id := by
          simp only [List.map_cons, List.nodup_cons, List.mem_map] at hnd
          intro heq
          exact hnd.1 ⟨x, hx, heq⟩
        rw [if_neg hne]
      simp only [List.map_cons, if_pos rfl, htail]
      constructor
      · exact List.find?_cons_of_pos _ (by simp [hh])
      · rw [List.filter_cons_of_pos (by simp)]
        rw [filter_eq_nil_of_all_false t (fun x hx =>
          hdis x (List.mem_cons_of_mem _ hx))]
        simp
    · rw [List.find?_cons_of_neg _ (by simp [hh])] at hfind
      have hmem : r0 ∈ t := List.mem_of_find?_eq_some hfind
      have hneq : h.id ≠ r0.id := by
        simp only [List.map_cons, List.nodup_cons, List.mem_map] at hnd
        intro heq
        exact hnd.1 ⟨r0, hmem, heq.symm⟩
      have ihr := ih (fun x hx => hdis x (List.mem_cons_of_mem _ hx))
        (by simp only [List.map_cons, List.nodup_cons] at hnd; exact hnd.2) r0 hfind
      simp only [List.map_cons, if_neg hneq]
      constructor
      · rw [List.find?_cons_of_neg _ (by simp [hh])]
        exact ihr.1
      · rw [List.filter_cons_of_neg (by simp [hdis h (List.mem_cons_self _ _)])]
        exact ihr.2

/-- Insert step of `save_agent_settings` on an already-all-disabled table
with no row for the endpoint: the appended enabled row is the unique enabled
row and is found by endpoint. -/
theorem save_insert_branch (e : String) (row : AgentSettings)
    (hrow_e : row.endpoint = e) (hrow_en : row.enabled = true) :
    ∀ l : List AgentSettings, (∀ r ∈ l, r.enabled = false) →
    l.find? (fun r => r.endpoint = e) = none →
    ((l ++ [row]).find? (fun r => r.endpoint = e) = some row ∧
     (l ++ [row]).filter (fun r => r.enabled) = [row]) := by
  intro l
  induction l with
  | nil =>
    intro _ _
    constructor
    · exact List.find?_cons_of_pos _ (by simp [hrow_e])
    · simp [List.filter, hrow_en]
  | cons h t ih =>
    intro hdis hfind
    have hh : ¬ (h.endpoint = e) := by
      intro hcontra
      rw [List.find?_cons_of_pos _ (by simp [hcontra])] at hfind
      exact Option.noConfusion hfind
    rw [List.find?_cons_of_neg _ (by simp [hh])] at hfind
    have ihr := ih (fun x hx => hdis x (List.mem_cons_of_mem _ hx)) hfind
    constructor
    · rw [List.cons_append, List.find?_cons_of_neg _ (by simp [hh])]
      exact ihr.1
    · rw [List.cons_append,
        List.filter_cons_of_neg (by simp [hdis h (List.mem_cons_self _ _)])]
      exact ihr.2

/-- C9: the agent-settings store keeps at most one row enabled:
`save_agent_settings` leaves exactly one enabled row — the row for the
given endpoint (updated or freshly inserted) — and returns it, and that row
is what `get_active_agent_settings` then yields; `disable_agent_settings`
leaves no enabled row; `get_active_agent_settings` only ever returns an
enabled row.  Each operation therefore preserves the at-most-one-enabled
invariant. -/
theorem C9_agent_settings_at_most_one_enabled (db : AgentSettingsTable)
    (endpoint model_archetype : String) (max_tokens : Int) (secret_key : Option String)
    (now : String)
    (hids : (db.map (fun r => r.id)).Nodup) :
    (enabledCount (save_agent_settings db endpoint model_archetype max_tokens
        secret_key now).1 = 1) ∧
    (∃ row,
      (save_agent_settings db endpoint model_archetype max_tokens secret_key now).2 =
        some row ∧
      row.enabled = true ∧ row.endpoint = endpoint ∧
      get_active_agent_settings
        (save_agent_settings db endpoint model_archetype max_tokens secret_key now).1 =
        some row) ∧
    enabledCount (disable_agent_settings db now) = 0 ∧
    (∀ r, get_active_agent_settings db = some r → r.enabled = true) := by
  have hdis : ∀ r ∈ db.map (fun r => { r with enabled := false, updated_at := now }),
      r.enabled = false := by
    intro r hr
    obtain ⟨x, _, hx⟩ := List.mem_map.mp hr
    rw [← hx]
  have hnd1 : ((db.map (fun r => { r with enabled := false, updated_at := now })).map
      (fun r => r.id)).Nodup := by
    rw [List.map_map]
    exact hids
  have hdisable : enabledCount (disable_agent_settings db now) = 0 := by
    rw [enabledCount, disable_agent_settings,
      filter_eq_nil_of_all_false _ hdis]
    rfl
  have hactive : ∀ r, get_active_agent_settings db = some r → r.enabled = true := by
    intro r hr
    have := List.find?_some hr
    simpa using this
  rcases hfind : (db.map (fun r => { r with enabled := false, updated_at := now })).find?
      (fun r => r.endpoint = endpoint) with _ | r0
  · have hins := save_insert_branch endpoint
      ⟨next_rowid (db.map (fun r => { r with enabled := false, updated_at := now })),
       endpoint, model_archetype, max_tokens, true, secret_key, now, now⟩ rfl rfl _ hdis hfind
    refine ⟨?_, ?_, hdisable, hactive⟩
    · simp only [save_agent_settings, hfind, Option.map_none']
      rw [enabledCount, hins.2]
      rfl
    · refine ⟨⟨next_rowid (db.map (fun r => { r with enabled := false, updated_at := now })),
        endpoint, model_archetype, max_tokens, true, secret_key, now, now⟩, ?_, rfl, rfl, ?_⟩
      · simp only [save_agent_settings, hfind, Option.map_none']
        rw [get_agent_settings_by_endpoint]
        exact hins.1
      · simp only [save_agent_settings, hfind, Option.map_none']
        rw [get_active_agent_settings]
        exact find?_of_filter_eq_singleton _ _ hins.2
  · have hupd := save_update_branch endpoint model_archetype max_tokens secret_key now
      _ hdis hnd1 r0 hfind
    have hr0e : r0.endpoint = endpoint := by
      have := List.find?_some hfind
      simpa using this
    refine ⟨?_, ?_, hdisable, hactive⟩
    · simp only [save_agent_settings, hfind, Option.map_some']
      rw [enabledCount, hupd.2]
      rfl
    · refine ⟨({ r0 with model_archetype := model_archetype, max_tokens := max_tokens, secret_key := secret_key, enabled := true, updated_at := now } : AgentSettings), ?_, rfl, hr0e, ?_⟩
      · simp only [save_agent_settings, hfind, Option.map_some']
        rw [get_agent_settings_by_endpoint]
        exact hupd.1
      · simp only [save_agent_settings, hfind, Option.map_some']
        rw [get_active_agent_settings]
        exact find?_of_filter_eq_singleton _ _ hupd.2

/-- C9 witness: saving over a table with one previously enabled row for a
different endpoint leaves exactly one enabled row, the saved one, and the
accessors behave as claimed. -/
theorem C9_agent_settings_at_most_one_enabled_witness :
    enabledCount (save_agent_settings
      [⟨1, "https://a.example", "kimi", 40000, true, none, "t0", "t0"⟩]
      "https://b.example" "gpt" 4096 (some "sk") "t1").1 = 1 ∧
    enabledCount (disable_agent_settings
      [⟨1, "https://a.example", "kimi", 40000, true, none, "t0", "t0"⟩] "t1") = 0 :=
  ⟨(C9_agent_settings_at_most_one_enabled
      [⟨1, "https://a.example", "kimi", 40000, true, none, "t0", "t0"⟩]
      "https://b.example" "gpt" 4096 (some "sk") "t1" (by decide)).1,
   (C9_agent_settings_at_most_one_enabled
      [⟨1, "https://a.example", "kimi", 40000, true, none, "t0", "t0"⟩]
      "https://b.example" "gpt" 4096 (some "sk") "t1" (by decide)).2.2.1⟩

theorem chop_spec (max_len : Nat) (hm : 0 < max_len) :
    ∀ (fuel : Nat) (s : List Char), s.length ≤ fuel →
      (∀ p ∈ (chop fuel max_len s).1, p.length ≤ max_len) ∧
      (chop fuel max_len s).2.length ≤ max_len := by
  intro fuel
  induction fuel with
  | zero =>
    intro s hs
    constructor
    · intro p hp; simp [chop] at hp
    · simp only [chop]; omega
  | succ f ih =>
    intro s hs
    by_cases hl : s.length > max_len
    · have hrec := ih (s.drop max_len) (by simp only [List.length_drop]; omega)
      simp only [chop, if_pos hl]
      constructor
      · intro p hp
        rcases List.mem_cons.mp hp with hp | hp
        · subst hp; simp only [List.length_take]; omega
        · exact hrec.1 p hp
      · exact hrec.2
    · simp only [chop, if_neg hl]
      constructor
      · intro p hp; simp at hp
      · omega

theorem split_step_inv (max_len : Nat) (hm : 0 < max_len)
    (st : List (List Char) × List Char) (line : List Char)
    (hc : ∀ p ∈ st.1, p.length ≤ max_len) (hcur : st.2.length ≤ max_len) :
    (∀ p ∈ (split_step max_len st line).1, p.length ≤ max_len) ∧
      (split_step max_len st line).2.length ≤ max_len := by
  have hpush : ∀ p ∈ (if st.2.isEmpty then st.1 else st.1 ++ [st.2]),
      p.length ≤ max_len := by
    intro p hp
    by_cases hemp : st.2.isEmpty
    · rw [if_pos hemp] at hp; exact hc p hp
    · rw [if_neg hemp] at hp
      rcases List.mem_append.mp hp with hp | hp
      · exact hc p hp
      · simp only [List.mem_singleton] at hp; subst hp; exact hcur
  by_cases hbig : st.2.length + line.length + 1 > max_len
  · by_cases hline : line.length > max_len
    · have hchop := chop_spec max_len hm line.length line (le_refl _)
      simp only [split_step, if_pos hbig, if_pos hline]
      constructor
      · intro p hp
        rcases List.mem_append.mp hp with hp | hp
        · exact hpush p hp
        · exact hchop.1 p hp
      · by_cases hemp : (chop line.length max_len line).2.isEmpty
        · simp only [if_pos hemp, List.length_nil]; omega
        · simp only [if_neg hemp]; exact hchop.2
    · simp only [split_step, if_pos hbig, if_neg hline]
      exact ⟨hpush, by omega⟩
  · simp only [split_step, if_neg hbig]
    refine ⟨hc, ?_⟩
    by_cases hemp : st.2.isEmpty
    · simp only [if_pos hemp]; omega
    · simp only [if_neg hemp, List.length_append, List.length_cons]; omega

theorem foldl_split_step_inv (max_len : Nat) (hm : 0 < max_len) :
    ∀ (lines : List (List Char)) (st : List (List Char) × List Char),
      (∀ p ∈ st.1, p.length ≤ max_len) → st.2.length ≤ max_len →
      (∀ p ∈ (lines.foldl (split_step max_len) st).1, p.length ≤ max_len) ∧
        (lines.foldl (split_step max_len) st).2.length ≤ max_len := by
  intro lines
  induction lines with
  | nil => intro st hc hcur; exact ⟨hc, hcur⟩
  | cons line rest ih =>
    intro st hc hcur
    have hstep := split_step_inv max_len hm st line hc hcur
    exact ih _ hstep.1 hstep.2

/-- C10: every chunk `split_message` returns is at most `max_len` bytes; a
text of at most `max_len` bytes comes back as the single unchanged chunk;
and the Discord handler routes every successful non-empty agent response
through `split_message` with `max_len = 2000`. -/
theorem C10_split_message_chunks_bounded (text : String) (max_len : Nat)
    (hm : 0 < max_len) :
    (∀ chunk ∈ split_message text max_len, chunk.length ≤ max_len) ∧
    (text.length ≤ max_len → split_message text max_len = [text]) ∧
    (∀ result : DispatchResult, result.error = none → result.response ≠ "" →
      discord_final_messages result = split_message result.response 2000) := by
  refine ⟨?_, ?_, ?_⟩
  · intro chunk hchunk
    simp only [split_message, List.mem_map] at hchunk
    obtain ⟨l, hl, hlc⟩ := hchunk
    have hlen : chunk.length = l.length := by rw [← hlc]; rfl
    rw [hlen]
    revert hl
    rw [split_message_core]
    by_cases hle : text.data.length ≤ max_len
    · rw [if_pos hle]
      intro hl
      simp only [List.mem_singleton] at hl
      subst hl
      exact hle
    · rw [if_neg hle]
      intro hl
      have hinv := foldl_split_step_inv max_len hm (rust_lines text.data) ([], [])
        (by intro p hp; simp at hp) (by simp)
      by_cases hemp : ((rust_lines text.data).foldl (split_step max_len) ([], [])).2.isEmpty
      · simp only [if_pos hemp] at hl
        exact hinv.1 l hl
      · simp only [if_neg hemp] at hl
        rcases List.mem_append.mp hl with hl | hl
        · exact hinv.1 l hl
        · simp only [List.mem_singleton] at hl; subst hl; exact hinv.2
  · intro hle
    rw [split_message, split_message_core,
      if_pos (show text.data.length ≤ max_len from hle)]
    rfl
  · intro result herr hresp
    rw [discord_final_messages, if_pos ⟨by rw [herr]; rfl, hresp⟩]

/-- C10 witness: a concrete long text is split into chunks of at most five
bytes, a short text is returned unchanged, and a successful dispatch result
is sent through `split_message` with limit 2000. -/
theorem C10_split_message_chunks_bounded_witness :
    (∀ chunk ∈ split_message "hello world, this is long" 5, chunk.length ≤ 5) ∧
    split_message "hi" 5 = ["hi"] ∧
    discord_final_messages ⟨"fine", none⟩ = split_message "fine" 2000 :=
  ⟨(C10_split_message_chunks_bounded "hello world, this is long" 5 (by decide)).1,
   (C10_split_message_chunks_bounded "hi" 5 (by decide)).2.1 (by decide),
   (C10_split_message_chunks_bounded "x" 1 (by decide)).2.2 ⟨"fine", none⟩ rfl
     (by decide)⟩

end StarkBot